import Mathlib

/-!
Shallow embedding of the Agent Orchestration Core of the
legend-guardian-workspace repository:

* `MemoryStore` — src/src/legend_guardian/agent/memory.py
* `PolicyEngine` — src/legend-guardian-agent/src/agent/policies.py
* `AgentOrchestrator.parse_intent` / `execute_step` —
  src/legend-guardian-agent/src/agent/orchestrator.py
* the execution loop of `process_intent` —
  src/legend-guardian-agent/src/api/routers/intent.py

Python dict/list/scalar values are embedded as the JSON-like type `Val`;
machine integers are `Int`; functions that can raise return `Except String`.
Strings are handled over `List Char`; character classes (`\w`, `\d`, `\s`)
are modelled at their ASCII meaning.
-/

/-- JSON-like value type: the embedding of the duck-typed Python values
(`Dict[str, Any]`, lists, strings, numbers, booleans, None) that flow
through params, episodes and action records. -/
inductive Val where
  | vStr (s : String)
  | vInt (n : Int)
  | vBool (b : Bool)
  | vNull
  | vList (items : List Val)
  | vDict (fields : List (String × Val))
  deriving Repr, BEq

/-! Decidable equality for `Val` (the derive handler does not support the
nested induction, so the three mutually recursive deciders are spelled
out). -/
mutual

/-- Decidable equality on values. -/
def decEqVal : (a b : Val) → Decidable (a = b)
  | Val.vStr s, Val.vStr t =>
    match decEq s t with
    | isTrue h => isTrue (h ▸ rfl)
    | isFalse h => isFalse (fun he => h (Val.vStr.inj he))
  | Val.vInt m, Val.vInt n =>
    match decEq m n with
    | isTrue h => isTrue (h ▸ rfl)
    | isFalse h => isFalse (fun he => h (Val.vInt.inj he))
  | Val.vBool a, Val.vBool b =>
    match decEq a b with
    | isTrue h => isTrue (h ▸ rfl)
    | isFalse h => isFalse (fun he => h (Val.vBool.inj he))
  | Val.vNull, Val.vNull => isTrue rfl
  | Val.vList xs, Val.vList ys =>
    match decEqValList xs ys with
    | isTrue h => isTrue (h ▸ rfl)
    | isFalse h => isFalse (fun he => h (Val.vList.inj he))
  | Val.vDict xs, Val.vDict ys =>
    match decEqValFields xs ys with
    | isTrue h => isTrue (h ▸ rfl)
    | isFalse h => isFalse (fun he => h (Val.vDict.inj he))
  | Val.vStr _, Val.vInt _ => isFalse (fun h => Val.noConfusion h)
  | Val.vStr _, Val.vBool _ => isFalse (fun h => Val.noConfusion h)
  | Val.vStr _, Val.vNull => isFalse (fun h => Val.noConfusion h)
  | Val.vStr _, Val.vList _ => isFalse (fun h => Val.noConfusion h)
  | Val.vStr _, Val.vDict _ => isFalse (fun h => Val.noConfusion h)
  | Val.vInt _, Val.vStr _ => isFalse (fun h => Val.noConfusion h)
  | Val.vInt _, Val.vBool _ => isFalse (fun h => Val.noConfusion h)
  | Val.vInt _, Val.vNull => isFalse (fun h => Val.noConfusion h)
  | Val.vInt _, Val.vList _ => isFalse (fun h => Val.noConfusion h)
  | Val.vInt _, Val.vDict _ => isFalse (fun h => Val.noConfusion h)
  | Val.vBool _, Val.vStr _ => isFalse (fun h => Val.noConfusion h)
  | Val.vBool _, Val.vInt _ => isFalse (fun h => Val.noConfusion h)
  | Val.vBool _, Val.vNull => isFalse (fun h => Val.noConfusion h)
  | Val.vBool _, Val.vList _ => isFalse (fun h => Val.noConfusion h)
  | Val.vBool _, Val.vDict _ => isFalse (fun h => Val.noConfusion h)
  | Val.vNull, Val.vStr _ => isFalse (fun h => Val.noConfusion h)
  | Val.vNull, Val.vInt _ => isFalse (fun h => Val.noConfusion h)
  | Val.vNull, Val.vBool _ => isFalse (fun h => Val.noConfusion h)
  | Val.vNull, Val.vList _ => isFalse (fun h => Val.noConfusion h)
  | Val.vNull, Val.vDict _ => isFalse (fun h => Val.noConfusion h)
  | Val.vList _, Val.vStr _ => isFalse (fun h => Val.noConfusion h)
  | Val.vList _, Val.vInt _ => isFalse (fun h => Val.noConfusion h)
  | Val.vList _, Val.vBool _ => isFalse (fun h => Val.noConfusion h)
  | Val.vList _, Val.vNull => isFalse (fun h => Val.noConfusion h)
  | Val.vList _, Val.vDict _ => isFalse (fun h => Val.noConfusion h)
  | Val.vDict _, Val.vStr _ => isFalse (fun h => Val.noConfusion h)
  | Val.vDict _, Val.vInt _ => isFalse (fun h => Val.noConfusion h)
  | Val.vDict _, Val.vBool _ => isFalse (fun h => Val.noConfusion h)
  | Val.vDict _, Val.vNull => isFalse (fun h => Val.noConfusion h)
  | Val.vDict _, Val.vList _ => isFalse (fun h => Val.noConfusion h)

/-- Decidable equality on value lists. -/
def decEqValList : (a b : List Val) → Decidable (a = b)
  | [], [] => isTrue rfl
  | [], _ :: _ => isFalse (fun h => List.noConfusion h)
  | _ :: _, [] => isFalse (fun h => List.noConfusion h)
  | x :: xs, y :: ys =>
    match decEqVal x y with
    | isFalse h => isFalse (fun he => h (List.head_eq_of_cons_eq he))
    | isTrue h1 =>
      match decEqValList xs ys with
      | isTrue h2 => isTrue (h1 ▸ h2 ▸ rfl)
      | isFalse h => isFalse (fun he => h (List.tail_eq_of_cons_eq he))

/-- Decidable equality on field lists. -/
def decEqValFields : (a b : List (String × Val)) → Decidable (a = b)
  | [], [] => isTrue rfl
  | [], _ :: _ => isFalse (fun h => List.noConfusion h)
  | _ :: _, [] => isFalse (fun h => List.noConfusion h)
  | (k, v) :: xs, (k2, v2) :: ys =>
    match decEq k k2 with
    | isFalse h =>
      isFalse (fun he => h (congrArg Prod.fst (List.head_eq_of_cons_eq he)))
    | isTrue hk =>
      match decEqVal v v2 with
      | isFalse h =>
        isFalse (fun he => h (congrArg Prod.snd (List.head_eq_of_cons_eq he)))
      | isTrue hv =>
        match decEqValFields xs ys with
        | isTrue ht => isTrue (hk ▸ hv ▸ ht ▸ rfl)
        | isFalse h => isFalse (fun he => h (List.tail_eq_of_cons_eq he))

end

instance : DecidableEq Val := decEqVal

/-- Python dictionary lookup `d.get(key)` on an association list. -/
def dictGet (fields : List (String × Val)) (key : String) : Option Val :=
  List.lookup key fields

/-- Python `d.get(key, default)` where the caller expects a string value.
A present non-string value is surfaced as `none` (in Python it would flow
on and fail with a `TypeError` at the use site). -/
def dictGetStr (fields : List (String × Val)) (key : String)
    (dflt : String) : Option String :=
  match List.lookup key fields with
  | none => some dflt
  | some (Val.vStr s) => some s
  | some _ => none

/-- Python `d.get(key, default)` for string values, with the `TypeError`
case collapsed to the default: used where the surrounding code only ever
stores strings under the key. -/
def dictGetStrD (fields : List (String × Val)) (key : String)
    (dflt : String) : String :=
  (dictGetStr fields key dflt).getD dflt

/-- `episode.get("timestamp", now)` followed by assignment: gives the
dictionary a default value for a key (keeps an existing binding). -/
def setDefaultField (fields : List (String × Val)) (key : String)
    (v : Val) : List (String × Val) :=
  match List.lookup key fields with
  | some _ => fields
  | none => fields ++ [(key, v)]

/-- Applies `setDefaultField` to a dictionary value; a non-dictionary
value is left unchanged (the Python code only ever passes dicts). -/
def valSetDefault (v : Val) (key : String) (d : Val) : Val :=
  match v with
  | Val.vDict fields => Val.vDict (setDefaultField fields key d)
  | other => other

/-! ## MemoryStore (src/src/legend_guardian/agent/memory.py) -/

/-- The in-memory store: `max_episodes` bound, episode list, action list,
context map, as in `MemoryStore.__init__`. -/
structure MemoryStore where
  maxEpisodes : Nat
  episodes : List Val
  actions : List Val
  context : List (String × Val)
  deriving Repr, DecidableEq

/-- `MemoryStore(max_episodes)` with empty history. -/
def MemoryStore.empty (maxEpisodes : Nat := 1000) : MemoryStore :=
  ⟨maxEpisodes, [], [], []⟩

/-- Python tail slice `xs[-n:]` for a natural `n`: for `n = 0` this is
`xs[-0:] = xs[0:]`, the whole list; otherwise the last `n` entries. -/
def pyTailSlice (xs : List α) (n : Nat) : List α :=
  if n = 0 then xs else xs.drop (xs.length - n)

/-- `MemoryStore.add_episode`: default the timestamp, append, then keep
only the last `max_episodes` entries when the bound is exceeded. -/
def MemoryStore.addEpisode (s : MemoryStore) (now : String) (episode : Val) :
    MemoryStore :=
  let ep := valSetDefault episode "timestamp" (Val.vStr now)
  let es := s.episodes ++ [ep]
  let es := if es.length > s.maxEpisodes then pyTailSlice es s.maxEpisodes else es
  { s with episodes := es }

/-- `MemoryStore.add_action`: default the timestamp, append, then keep
only the last `max_episodes * 10` entries when that bound is exceeded. -/
def MemoryStore.addAction (s : MemoryStore) (now : String) (action : Val) :
    MemoryStore :=
  let a := valSetDefault action "timestamp" (Val.vStr now)
  let as' := s.actions ++ [a]
  let as' := if as'.length > s.maxEpisodes * 10 then
      pyTailSlice as' (s.maxEpisodes * 10) else as'
  { s with actions := as' }

/-- `MemoryStore.get_recent_episodes(count)`:
`self.episodes[-count:] if self.episodes else []`. -/
def MemoryStore.getRecentEpisodes (s : MemoryStore) (count : Nat) : List Val :=
  if s.episodes.isEmpty then [] else pyTailSlice s.episodes count

/-- `MemoryStore.get_recent_actions(count)`:
`self.actions[-count:] if self.actions else []`. -/
def MemoryStore.getRecentActions (s : MemoryStore) (count : Nat) : List Val :=
  if s.actions.isEmpty then [] else pyTailSlice s.actions count

/-! ### find_similar_episodes -/

/-- ASCII whitespace in the sense of Python `str.split()` with no
separator argument. -/
def isPySpace (c : Char) : Bool :=
  c = ' ' || c = '\t' || c = '\n' || c = '\r' || c = '\x0b' || c = '\x0c'

/-- Accumulator pass behind `pySplitWs`: collects maximal nonempty runs
of non-whitespace characters. -/
def wsTokensAux (acc : List Char) : List Char → List String
  | [] => if acc.isEmpty then [] else [String.mk acc.reverse]
  | c :: rest =>
    if isPySpace c then
      if acc.isEmpty then wsTokensAux [] rest
      else String.mk acc.reverse :: wsTokensAux [] rest
    else wsTokensAux (c :: acc) rest

/-- Python `s.split()`: split on whitespace runs, dropping empty pieces. -/
def pySplitWs (s : String) : List String :=
  wsTokensAux [] s.toList

/-- Python `s.lower()` at its ASCII meaning. -/
def pyLower (s : String) : String :=
  String.mk (s.toList.map Char.toLower)

/-- The token set `set(prompt.lower().split())` of a prompt, as a
duplicate-free list (the dedup order is irrelevant: scoring only counts
distinct tokens). -/
def promptTokens (s : String) : List String :=
  (pySplitWs (pyLower s)).dedup

/-- The similarity score of `find_similar_episodes`:
`len(keywords & ep_keywords) / max(len(keywords), 1)`. -/
def episodeScore (prompt : String) (episode : Val) : ℚ :=
  let keywords := promptTokens prompt
  let epKeywords := promptTokens
    (dictGetStrD (match episode with | Val.vDict f => f | _ => []) "prompt" "")
  ((keywords.filter (fun k => epKeywords.contains k)).length : ℚ) /
    (max keywords.length 1 : ℚ)

/-- Stable insertion (descending by score, an element goes before the
first strictly smaller score and after equal ones' predecessors): the
building block of the stable descending sort performed by
`scored_episodes.sort(key=lambda x: x[0], reverse=True)`. -/
def insertByScore (x : ℚ × Val) : List (ℚ × Val) → List (ℚ × Val)
  | [] => [x]
  | y :: ys => if x.1 ≥ y.1 then x :: y :: ys else y :: insertByScore x ys

/-- Stable sort, descending by score (Python `list.sort` is stable, and
with `reverse=True` equal-key elements keep their original order). -/
def sortByScoreDesc : List (ℚ × Val) → List (ℚ × Val)
  | [] => []
  | x :: xs => insertByScore x (sortByScoreDesc xs)

/-- `MemoryStore.find_similar_episodes(prompt, limit)`: score each stored
episode, keep positive scores, sort descending (stable), take the first
`limit`, return the episodes. -/
def MemoryStore.findSimilarEpisodes (s : MemoryStore) (prompt : String)
    (limit : Nat) : List Val :=
  let scored := s.episodes.filterMap (fun ep =>
    let score := episodeScore prompt ep
    if score > 0 then some (score, ep) else none)
  ((sortByScoreDesc scored).take limit).map Prod.snd

/-! ### import_history -/

/-- The shape of an exported history document (top-level keys `episodes`,
`actions`, `context`); a missing field models a missing key. -/
structure HistoryData where
  episodes : Option (List Val)
  actions : Option (List Val)
  context : Option (List (String × Val))

/-- `MemoryStore.import_history(data)`: each present key replaces the
corresponding list verbatim — no truncation to the configured bound. -/
def MemoryStore.importHistory (s : MemoryStore) (data : HistoryData) :
    MemoryStore :=
  let s := match data.episodes with
    | some es => { s with episodes := es }
    | none => s
  let s := match data.actions with
    | some as' => { s with actions := as' }
    | none => s
  match data.context with
  | some ctx => { s with context := ctx }
  | none => s

/-! ## PII pattern matchers

The four `pii_patterns` regular expressions of
`PolicyEngine._load_default_policies` (policies.py lines 25-30), modelled
over `List Char` with Python `re.search` existential semantics: a search
succeeds exactly when some start position admits a decomposition of the
string satisfying the pattern, including the `\b` word-boundary
conditions.  `\w`, `\d` and the explicit classes are taken at their ASCII
meaning. -/

/-- Python regex word character `\w` (ASCII): letters, digits, underscore. -/
def isWordChar (c : Char) : Bool :=
  c.isAlphanum || c = '_'

/-- Is the character at index `i` (if any) a word character? -/
def wordAt (cs : List Char) (i : Nat) : Bool :=
  match cs.get? i with
  | some c => isWordChar c
  | none => false

/-- Python `\b` at position `i` (the gap before index `i`): exactly one of
the two neighbouring characters (out of range counts as non-word) is a
word character. -/
def boundaryAt (cs : List Char) (i : Nat) : Bool :=
  (match i with
   | 0 => false
   | j + 1 => wordAt cs j) != wordAt cs i

/-- Does the character at index `i` exist and satisfy `p`? -/
def classAt (cs : List Char) (i : Nat) (p : Char → Bool) : Bool :=
  match cs.get? i with
  | some c => p c
  | none => false

/-- `n` characters of class `p` starting at index `i`. -/
def runAt (cs : List Char) (i n : Nat) (p : Char → Bool) : Bool :=
  (List.range n).all fun k => classAt cs (i + k) p

/-- `\d{n}` starting at index `i`. -/
def digitsAt (cs : List Char) (i n : Nat) : Bool :=
  runAt cs i n Char.isDigit

/-- Literal character at index `i`. -/
def charIs (cs : List Char) (i : Nat) (c : Char) : Bool :=
  classAt cs i (fun d => d = c)

/-- End positions reachable from `j` by an optional separator `sep?`:
`j` itself, and `j + 1` when a separator character is at `j`. -/
def optSepEnds (cs : List Char) (j : Nat) (sep : Char → Bool) : List Nat :=
  if classAt cs j sep then [j, j + 1] else [j]

/-- SSN pattern match starting at `i`: `\b\d{3}-\d{2}-\d{4}\b`. -/
def ssnAt (cs : List Char) (i : Nat) : Bool :=
  boundaryAt cs i && digitsAt cs i 3 && charIs cs (i + 3) '-' &&
    digitsAt cs (i + 4) 2 && charIs cs (i + 6) '-' &&
    digitsAt cs (i + 7) 4 && boundaryAt cs (i + 11)

/-- `re.search` of the SSN pattern. -/
def ssnSearch (cs : List Char) : Bool :=
  (List.range (cs.length + 1)).any fun i => ssnAt cs i

/-- Credit-card separator class `[-\s]`. -/
def isCcSep (c : Char) : Bool :=
  c = '-' || isPySpace c

/-- Credit-card pattern match starting at `i`:
`\b\d{4}[-\s]?\d{4}[-\s]?\d{4}[-\s]?\d{4}\b`. -/
def ccAt (cs : List Char) (i : Nat) : Bool :=
  boundaryAt cs i && digitsAt cs i 4 &&
    ((optSepEnds cs (i + 4) isCcSep).any fun j1 => digitsAt cs j1 4 &&
      ((optSepEnds cs (j1 + 4) isCcSep).any fun j2 => digitsAt cs j2 4 &&
        ((optSepEnds cs (j2 + 4) isCcSep).any fun j3 => digitsAt cs j3 4 &&
          boundaryAt cs (j3 + 4))))

/-- `re.search` of the credit-card pattern. -/
def ccSearch (cs : List Char) : Bool :=
  (List.range (cs.length + 1)).any fun i => ccAt cs i

/-- Phone separator class `[-.]`. -/
def isPhoneSep (c : Char) : Bool :=
  c = '-' || c = '.'

/-- Phone pattern match starting at `i`: `\b\d{3}[-.]?\d{3}[-.]?\d{4}\b`. -/
def phoneAt (cs : List Char) (i : Nat) : Bool :=
  boundaryAt cs i && digitsAt cs i 3 &&
    ((optSepEnds cs (i + 3) isPhoneSep).any fun j1 => digitsAt cs j1 3 &&
      ((optSepEnds cs (j1 + 3) isPhoneSep).any fun j2 => digitsAt cs j2 4 &&
        boundaryAt cs (j2 + 4)))

/-- `re.search` of the phone pattern. -/
def phoneSearch (cs : List Char) : Bool :=
  (List.range (cs.length + 1)).any fun i => phoneAt cs i

/-- Email local-part class `[A-Za-z0-9._%+-]`. -/
def isLocalChar (c : Char) : Bool :=
  c.isAlphanum || c = '.' || c = '_' || c = '%' || c = '+' || c = '-'

/-- Email domain class `[A-Za-z0-9.-]`. -/
def isDomainChar (c : Char) : Bool :=
  c.isAlphanum || c = '.' || c = '-'

/-- Email top-level-domain class `[A-Z|a-z]` (the class literally
contains the bar character). -/
def isTldChar (c : Char) : Bool :=
  c.isAlpha || c = '|'

/-- Email pattern match starting at `i`:
`\b[A-Za-z0-9._%+-]+@[A-Za-z0-9.-]+\.[A-Z|a-z]{2,}\b`, as an existential
over the lengths of the three variable-length runs. -/
def emailAt (cs : List Char) (i : Nat) : Bool :=
  boundaryAt cs i &&
    ((List.range (cs.length + 1)).any fun l => decide (1 ≤ l) &&
      runAt cs i l isLocalChar && charIs cs (i + l) '@' &&
      ((List.range (cs.length + 1)).any fun d => decide (1 ≤ d) &&
        runAt cs (i + l + 1) d isDomainChar &&
        charIs cs (i + l + 1 + d) '.' &&
        ((List.range (cs.length + 1)).any fun t => decide (2 ≤ t) &&
          runAt cs (i + l + 1 + d + 1) t isTldChar &&
          boundaryAt cs (i + l + 1 + d + 1 + t))))

/-- `re.search` of the email pattern. -/
def emailSearch (cs : List Char) : Bool :=
  (List.range (cs.length + 1)).any fun i => emailAt cs i

/-- Does any of the four configured PII patterns match somewhere in the
string?  (`_check_pii` raises on the first matching pattern; for
detection only the disjunction matters.) -/
def piiMatchAny (s : String) : Bool :=
  let cs := s.toList
  emailSearch cs || ssnSearch cs || ccSearch cs || phoneSearch cs

/-! ## PolicyEngine (src/legend-guardian-agent/src/agent/policies.py) -/

/-! `PolicyEngine._check_pii`'s recursive `check_value` traversal,
as a detection predicate: strings are matched against the PII patterns,
dictionaries and lists are traversed, other scalars are ignored. -/
mutual

/-- PII detection over one value (`check_value`). -/
def piiDetected : Val → Bool
  | Val.vStr s => piiMatchAny s
  | Val.vDict fields => piiDetectedFields fields
  | Val.vList items => piiDetectedList items
  | Val.vInt _ => false
  | Val.vBool _ => false
  | Val.vNull => false

def piiDetectedList : List Val → Bool
  | [] => false
  | v :: vs => piiDetected v || piiDetectedList vs

def piiDetectedFields : List (String × Val) → Bool
  | [] => false
  | (_, v) :: fs => piiDetected v || piiDetectedFields fs

end

/-! The string leaves of a value, at any nesting depth through
dictionaries and lists. -/
mutual

/-- All string leaves of a value. -/
def stringLeaves : Val → List String
  | Val.vStr s => [s]
  | Val.vDict fields => stringLeavesFields fields
  | Val.vList items => stringLeavesList items
  | Val.vInt _ => []
  | Val.vBool _ => []
  | Val.vNull => []

def stringLeavesList : List Val → List String
  | [] => []
  | v :: vs => stringLeaves v ++ stringLeavesList vs

def stringLeavesFields : List (String × Val) → List String
  | [] => []
  | (_, v) :: fs => stringLeaves v ++ stringLeavesFields fs

end

/-- Naming rule for models, `^[A-Z][a-zA-Z0-9]*$` (PascalCase),
via `re.match` with an end anchor: a full-string match. -/
def pascalCaseOk (s : String) : Bool :=
  match s.toList with
  | [] => false
  | c :: rest => c.isUpper && rest.all Char.isAlphanum

/-- Naming rule for workspaces, `^[a-z][a-z0-9-]*$` (kebab-case). -/
def kebabCaseOk (s : String) : Bool :=
  match s.toList with
  | [] => false
  | c :: rest => c.isLower && rest.all fun d => d.isLower || d.isDigit || d = '-'

/-- Naming rule for services, `^[a-z][a-zA-Z0-9/]*$`
(camelCase with slashes). -/
def servicePathOk (s : String) : Bool :=
  match s.toList with
  | [] => false
  | c :: rest => c.isLower && rest.all fun d => d.isAlphanum || d = '/'

/-- Python `len` on a JSON-like value (defined for strings, lists and
dictionaries; `none` models the `TypeError` of `len` on other values). -/
def pyLen : Val → Option Nat
  | Val.vStr s => some s.length
  | Val.vList items => some items.length
  | Val.vDict fields => some fields.length
  | _ => none

/-- The policy configuration: `_load_default_policies` (with the optional
YAML overlay of the list- and limit-valued keys; the `naming_rules` and
`pii_patterns` are kept at their concrete default patterns, embedded
above as the `…CaseOk` checkers and the PII matchers). The field
defaults are the default policies. -/
structure PolicyEngine where
  prohibitedActions : List String := []
  requireApproval : List String := ["delete", "merge", "publish"]
  maxEntitiesPerRequest : Nat := 100
  maxReviewTitleLength : Nat := 200
  allowedSchemaTypes : List String := ["jsonSchema", "avro", "protobuf"]
  deriving Repr

/-- The default-policy engine (`PolicyEngine()` with no policy file). -/
def defaultPolicies : PolicyEngine := {}

/-- `PolicyEngine.check_action(action, params)`: first the recursive PII
scan over all of `params` (raising `"PII detected in parameters"` on a
match), then the per-action naming-convention and limit checks.  Raising
`ValueError`/`TypeError` is modelled as `Except.error`. -/
def PolicyEngine.checkAction (pe : PolicyEngine) (action : String)
    (params : List (String × Val)) : Except String Unit :=
  if piiDetectedFields params then
    Except.error "PII detected in parameters"
  else if action = "create_workspace" then
    match dictGetStr params "workspace_id" "" with
    | some w =>
      if kebabCaseOk w then Except.ok ()
      else Except.error "workspace id violates naming policy"
    | none => Except.error "TypeError"
  else if action = "create_model" then
    match dictGetStr params "name" "" with
    | some n =>
      if pascalCaseOk n then Except.ok ()
      else Except.error "model name violates naming policy"
    | none => Except.error "TypeError"
  else if action = "generate_service" then
    match dictGetStr params "path" "" with
    | some p =>
      if servicePathOk p then Except.ok ()
      else Except.error "service path violates naming policy"
    | none => Except.error "TypeError"
  else if action = "open_review" then
    match dictGetStr params "title" "" with
    | some t =>
      if t.length > pe.maxReviewTitleLength then
        Except.error "review title exceeds maximum length"
      else Except.ok ()
    | none => Except.error "TypeError"
  else if action = "upsert_entities" then
    match pyLen ((dictGet params "entities").getD (Val.vList [])) with
    | some n =>
      if n > pe.maxEntitiesPerRequest then
        Except.error "too many entities"
      else Except.ok ()
    | none => Except.error "TypeError"
  else if action = "transform_schema" then
    match dictGetStr params "format" "" with
    | some f =>
      if pe.allowedSchemaTypes.contains f then Except.ok ()
      else Except.error "schema type not allowed"
    | none => Except.error "schema type not allowed"
  else
    Except.ok ()

/-- A plan step: a dict `{action, params}`, plus the two annotation keys
the policy engine may attach (`requires_approval`, `validation_error`). -/
structure Step where
  action : String
  params : List (String × Val)
  requiresApproval : Bool := false
  validationError : Option String := none
  deriving Repr, DecidableEq

/-- `PolicyEngine.validate_plan(steps)`: drop prohibited actions; flag
approval-requiring actions; run `check_action` on each remaining step and
keep it, attaching the error as `validation_error` when the check raised. -/
def PolicyEngine.validatePlan (pe : PolicyEngine) : List Step → List Step
  | [] => []
  | st :: rest =>
    if pe.prohibitedActions.contains st.action then
      pe.validatePlan rest
    else
      let st := if pe.requireApproval.contains st.action then
          { st with requiresApproval := true } else st
      match pe.checkAction st.action st.params with
      | Except.ok _ => st :: pe.validatePlan rest
      | Except.error e =>
        { st with validationError := some e } :: pe.validatePlan rest

/-! ## AgentOrchestrator (src/legend-guardian-agent/src/agent/orchestrator.py) -/

/-- Python `sub in s` substring containment. -/
def strContainsSub (hay pat : String) : Bool :=
  (List.range (hay.toList.length + 1)).any fun i =>
    pat.toList.isPrefixOf (hay.toList.drop i)

/-- Python `s.strip()` (ASCII whitespace). -/
def pyStrip (s : String) : String :=
  String.mk (((s.toList.dropWhile isPySpace).reverse.dropWhile isPySpace).reverse)

/-- `AgentOrchestrator._extract_model_params`: model name from keyword
sniffing of the prompt. -/
def extractModelParams (prompt : String) : List (String × Val) :=
  let name :=
    if strContainsSub (pyLower prompt) "trade" then "Trade"
    else if strContainsSub (pyLower prompt) "position" then "Position"
    else "Model"
  [("name", Val.vStr name)]

/-- `AgentOrchestrator._extract_service_params` (note: these two membership
tests are on the raw prompt, not the lowercased one). -/
def extractServiceParams (prompt : String) : List (String × Val) :=
  let path :=
    if strContainsSub prompt "byNotional" then "trades/byNotional"
    else if strContainsSub prompt "byTicker" then "trades/byTicker"
    else "service/generated"
  [("path", Val.vStr path)]

/-- The rule-based part of `AgentOrchestrator.parse_intent`: the five
keyword rules, evaluated in order over the lowercased prompt, each
contributing at most one step. -/
def rawIntentSteps (prompt : String) : List Step :=
  let pl := pyLower prompt
  (if strContainsSub pl "create" && strContainsSub pl "model" then
    [{ action := "create_model", params := extractModelParams prompt }] else [])
  ++ (if strContainsSub pl "compile" then
    [{ action := "compile", params := [] }] else [])
  ++ (if strContainsSub pl "generate" && strContainsSub pl "service" then
    [{ action := "generate_service", params := extractServiceParams prompt }]
    else [])
  ++ (if strContainsSub pl "open" &&
        (strContainsSub pl "pr" || strContainsSub pl "review") then
    [{ action := "open_review",
       params := [("title", Val.vStr "Changes from agent")] }] else [])
  ++ (if strContainsSub pl "publish" then
    [{ action := "publish", params := [] }] else [])

/-- `AgentOrchestrator.parse_intent` (plan computation): build the raw
step list by the five rules, then pass it through
`PolicyEngine.validate_plan`.  The Lean function is total: the embedding
of the only raising subroutine, `check_action`, is caught inside
`validate_plan`, so parsing never raises. -/
def parseIntent (pe : PolicyEngine) (prompt : String) : List Step :=
  pe.validatePlan (rawIntentSteps prompt)

/-- A validated step rendered back to a JSON-like dict (as stored in the
episode's plan). -/
def stepToVal (st : Step) : Val :=
  Val.vDict ([("action", Val.vStr st.action), ("params", Val.vDict st.params)]
    ++ (if st.requiresApproval then [("requires_approval", Val.vBool true)]
        else [])
    ++ (match st.validationError with
        | some e => [("validation_error", Val.vStr e)]
        | none => []))

/-- `AgentOrchestrator.parse_intent` with its memory side effect: the
validated plan is returned and one episode is appended to the store. -/
def parseIntentM (pe : PolicyEngine) (mem : MemoryStore)
    (now uid : String) (prompt : String) (context : Val) :
    List Step × MemoryStore :=
  let steps := parseIntent pe prompt
  (steps, mem.addEpisode now (Val.vDict
    [("id", Val.vStr uid), ("prompt", Val.vStr prompt),
     ("plan", Val.vList (steps.map stepToVal)), ("context", context),
     ("timestamp", Val.vStr now)]))

/-! ### Handlers and execute_step -/

/-- The settings the handlers close over. -/
structure Settings where
  projectId : String
  workspaceId : String
  debug : Bool
  deriving Repr

/-- The adapter capabilities consumed by the handlers (EngineClient,
SDLCClient, DepotClient): external collaborators, each call returning a
value or raising. -/
structure Env where
  createWorkspace : String → String → Except String Val
  upsertEntities : List Val → Except String Val
  getEntities : Except String (List Val)
  createReview : String → String → Except String Val
  engineCompile : String → Except String Val
  transformToSchema : String → String → Except String Val
  runTests : Except String (List Val)
  depotSearch : String → Except String (List Val)
  depotPublish : String → Except String Val

/-- Python truthiness of a JSON-like value. -/
def pyTruthy : Val → Bool
  | Val.vStr s => s ≠ ""
  | Val.vInt n => n ≠ 0
  | Val.vBool b => b
  | Val.vNull => false
  | Val.vList items => !items.isEmpty
  | Val.vDict fields => !fields.isEmpty

/-- `AgentOrchestrator._generate_pure_from_csv`. -/
def generatePureFromCsv (modelName csvData : String) : String :=
  let lines := (pyStrip csvData).splitOn "\n"
  if lines.isEmpty then "Class " ++ modelName ++ " \x7b\x7d"
  else
    let headers := match lines with
      | [] => []
      | h :: _ => h.splitOn ","
    let properties := headers.map fun h => "  " ++ pyStrip h ++ ": String[1];"
    "Class model::" ++ modelName ++ "\n\x7b\n" ++
      String.intercalate "\n" properties ++ "\n\x7d"

/-- `AgentOrchestrator._extract_properties_from_csv`. -/
def extractPropertiesFromCsv (csvData : String) : List Val :=
  let lines := (pyStrip csvData).splitOn "\n"
  if lines.isEmpty then []
  else
    let headers := match lines with
      | [] => []
      | h :: _ => h.splitOn ","
    headers.map fun h => Val.vDict
      [("name", Val.vStr (pyStrip h)), ("type", Val.vStr "String"),
       ("multiplicity", Val.vDict
         [("lowerBound", Val.vInt 1), ("upperBound", Val.vInt 1)])]

/-- Rendering of a scalar value inside an f-string (container values do
not occur in the rendered positions in practice and are abridged). -/
def valDisplay : Val → String
  | Val.vStr s => s
  | Val.vInt n => toString n
  | Val.vBool b => if b then "True" else "False"
  | Val.vNull => "None"
  | Val.vList _ => "[...]"
  | Val.vDict _ => "..."

/-- `AgentOrchestrator._class_to_pure`. -/
def classToPure (content : List (String × Val)) : String :=
  let name := dictGetStrD content "name" "UnknownClass"
  let pkg := dictGetStrD content "package" "model"
  let properties := match dictGet content "properties" with
    | some (Val.vList l) => l
    | _ => []
  let propLines := properties.map fun p =>
    let pf := match p with | Val.vDict f => f | _ => []
    let propName := match dictGet pf "name" with
      | some v => valDisplay v
      | none => "None"
    let propType := dictGetStrD pf "type" "String"
    let mf := match dictGet pf "multiplicity" with
      | some (Val.vDict f) => f
      | _ => []
    let lower := (dictGet mf "lowerBound").getD (Val.vInt 1)
    let upper := (dictGet mf "upperBound").getD (Val.vInt 1)
    "  " ++ propName ++ ": " ++ propType ++
      "[" ++ valDisplay lower ++ ".." ++ valDisplay upper ++ "];"
  "Class " ++ pkg ++ "::" ++ name ++ "\n\x7b\n" ++
    String.intercalate "\n" propLines ++ "\n\x7d"

/-- `AgentOrchestrator._mapping_to_pure`. -/
def mappingToPure (content : List (String × Val)) : String :=
  let name := dictGetStrD content "name" "UnknownMapping"
  let pkg := dictGetStrD content "package" "mapping"
  "Mapping " ++ pkg ++ "::" ++ name ++ "\n(\n  // Mapping implementation\n)"

/-- `AgentOrchestrator._entities_to_pure`. -/
def entitiesToPure (entities : List Val) : String :=
  String.intercalate "\n\n" (entities.filterMap fun e =>
    let ef := match e with | Val.vDict f => f | _ => []
    let classifier := dictGetStrD ef "classifierPath" ""
    let content := match dictGet ef "content" with
      | some (Val.vDict f) => f
      | _ => []
    if strContainsSub classifier "Class" then some (classToPure content)
    else if strContainsSub classifier "Mapping" then some (mappingToPure content)
    else none)

/-- A bound handler: adapters + settings + params to a result or error,
together with the trace of adapter calls attempted (in order). -/
def Handler : Type :=
  Env → Settings → List (String × Val) → Except String Val × List String

/-- `AgentOrchestrator._create_workspace` (`params["project_id"]` /
`params["workspace_id"]` raise `KeyError` when missing). -/
def hCreateWorkspace : Handler := fun env _ params =>
  match dictGet params "project_id", dictGet params "workspace_id" with
  | some (Val.vStr p), some (Val.vStr w) =>
    (match env.createWorkspace p w with
     | Except.ok v => (Except.ok v, ["sdlc.create_workspace"])
     | Except.error e => (Except.error e, ["sdlc.create_workspace"]))
  | _, _ => (Except.error "KeyError", [])

/-- `AgentOrchestrator._create_model`. -/
def hCreateModel : Handler := fun env _ params =>
  let modelName := dictGetStrD params "name" "GeneratedModel"
  let csvData := dictGetStrD params "csv_data" ""
  let pureModel := generatePureFromCsv modelName csvData
  let entities : List Val := [Val.vDict
    [("path", Val.vStr ("model::" ++ modelName)),
     ("classifierPath", Val.vStr "meta::pure::metamodel::type::Class"),
     ("content", Val.vDict
       [("name", Val.vStr modelName), ("package", Val.vStr "model"),
        ("properties", Val.vList (extractPropertiesFromCsv csvData))])]]
  match env.upsertEntities entities with
  | Except.ok _ =>
    (Except.ok (Val.vDict
      [("model", Val.vStr modelName), ("pure", Val.vStr pureModel)]),
     ["sdlc.upsert_entities"])
  | Except.error e => (Except.error e, ["sdlc.upsert_entities"])

/-- `AgentOrchestrator._create_mapping`. -/
def hCreateMapping : Handler := fun env _ params =>
  let mappingName := dictGetStrD params "name" "GeneratedMapping"
  let mapping := Val.vDict
    [("path", Val.vStr ("mapping::" ++ mappingName)),
     ("classifierPath", Val.vStr "meta::pure::mapping::Mapping"),
     ("content", Val.vDict
       [("name", Val.vStr mappingName), ("package", Val.vStr "mapping"),
        ("classMappings", Val.vList [])])]
  match env.upsertEntities [mapping] with
  | Except.ok _ =>
    (Except.ok (Val.vDict [("mapping", Val.vStr mappingName)]),
     ["sdlc.upsert_entities"])
  | Except.error e => (Except.error e, ["sdlc.upsert_entities"])

/-- `AgentOrchestrator._compile`: fetch the workspace entities, convert
them to PURE, compile — and return the engine result as-is (its `status`
field is not inspected here). -/
def hCompile : Handler := fun env _ _ =>
  match env.getEntities with
  | Except.error e => (Except.error e, ["sdlc.get_entities"])
  | Except.ok entities =>
    match env.engineCompile (entitiesToPure entities) with
    | Except.ok r => (Except.ok r, ["sdlc.get_entities", "engine.compile"])
    | Except.error e =>
      (Except.error e, ["sdlc.get_entities", "engine.compile"])

/-- `AgentOrchestrator._generate_service`. -/
def hGenerateService : Handler := fun env _ params =>
  let path := dictGetStrD params "path" "generated/service"
  let service := Val.vDict
    [("path", Val.vStr ("service::" ++ path.replace "/" "::")),
     ("classifierPath", Val.vStr "meta::legend::service::Service"),
     ("content", Val.vDict
       [("pattern", Val.vStr ("/api/service/" ++ path)),
        ("documentation", Val.vStr "Generated service"),
        ("execution", Val.vDict [])])]
  match env.upsertEntities [service] with
  | Except.ok _ =>
    (Except.ok (Val.vDict [("service_path", Val.vStr path)]),
     ["sdlc.upsert_entities"])
  | Except.error e => (Except.error e, ["sdlc.upsert_entities"])

/-- `AgentOrchestrator._open_review`. -/
def hOpenReview : Handler := fun env _ params =>
  let title := dictGetStrD params "title" "Agent-generated changes"
  let description :=
    dictGetStrD params "description" "Changes generated by Legend Guardian Agent"
  match env.createReview title description with
  | Except.ok v => (Except.ok v, ["sdlc.create_review"])
  | Except.error e => (Except.error e, ["sdlc.create_review"])

/-- `AgentOrchestrator._search_depot`. -/
def hSearchDepot : Handler := fun env _ params =>
  let query := dictGetStrD params "query" ""
  match env.depotSearch query with
  | Except.ok results => (Except.ok (Val.vList results), ["depot.search"])
  | Except.error e => (Except.error e, ["depot.search"])

/-- `AgentOrchestrator._import_model` (stub in the source: no adapter
call, returns a constant). -/
def hImportModel : Handler := fun _ _ _ =>
  (Except.ok (Val.vDict [("imported", Val.vBool true)]), [])

/-- `AgentOrchestrator._transform_schema`. -/
def hTransformSchema : Handler := fun env _ params =>
  let formatType := dictGetStrD params "format" "avro"
  let classPath := dictGetStrD params "class_path" "model::Model"
  match env.transformToSchema formatType classPath with
  | Except.ok schema =>
    (Except.ok (Val.vDict
      [("schema", schema), ("format", Val.vStr formatType)]),
     ["engine.transform_to_schema"])
  | Except.error e => (Except.error e, ["engine.transform_to_schema"])

/-- `all(r["passed"] for r in results)`; `none` models the `KeyError`
when a result lacks the key. -/
def allTestsPassed : List Val → Option Bool
  | [] => some true
  | r :: rest =>
    let rf := match r with | Val.vDict f => f | _ => []
    match dictGet rf "passed" with
    | none => none
    | some v =>
      match allTestsPassed rest with
      | none => none
      | some b => some (pyTruthy v && b)

/-- `AgentOrchestrator._run_tests`. -/
def hRunTests : Handler := fun env _ _ =>
  match env.runTests with
  | Except.error e => (Except.error e, ["engine.run_tests"])
  | Except.ok results =>
    match allTestsPassed results with
    | none => (Except.error "KeyError", ["engine.run_tests"])
    | some passed =>
      (Except.ok (Val.vDict
        [("passed", Val.vBool passed), ("results", Val.vList results)]),
       ["engine.run_tests"])

/-- `AgentOrchestrator._publish`. -/
def hPublish : Handler := fun env _ params =>
  let version := dictGetStrD params "version" "1.0.0"
  match env.depotPublish version with
  | Except.ok v => (Except.ok v, ["depot.publish"])
  | Except.error e => (Except.error e, ["depot.publish"])

/-- The static dispatch table of `AgentOrchestrator.execute_step`
(orchestrator.py lines 117-129). -/
def handlerTable : List (String × Handler) :=
  [("create_workspace", hCreateWorkspace),
   ("create_model", hCreateModel),
   ("create_mapping", hCreateMapping),
   ("compile", hCompile),
   ("generate_service", hGenerateService),
   ("open_review", hOpenReview),
   ("search_depot", hSearchDepot),
   ("import_model", hImportModel),
   ("transform_schema", hTransformSchema),
   ("run_tests", hRunTests),
   ("publish", hPublish)]

/-- `AgentOrchestrator.execute_step(action, params)`: dispatch-table
lookup (unknown action raises immediately), then the policy check
(a violation aborts the step), then the handler; after a normal handler
return — and only then — one ActionRecord is appended to the memory
store.  Returns (result-or-error, memory, adapter-call trace). -/
def executeStep (env : Env) (st : Settings) (pe : PolicyEngine)
    (mem : MemoryStore) (now : String) (action : String)
    (params : List (String × Val)) :
    Except String Val × MemoryStore × List String :=
  match handlerTable.lookup action with
  | none => (Except.error ("Unknown action: " ++ action), mem, [])
  | some h =>
    match pe.checkAction action params with
    | Except.error e => (Except.error e, mem, [])
    | Except.ok _ =>
      match h env st params with
      | (Except.ok result, trace) =>
        (Except.ok result,
         mem.addAction now (Val.vDict
           [("action", Val.vStr action), ("params", Val.vDict params),
            ("result", result), ("timestamp", Val.vStr now)]),
         trace)
      | (Except.error e, trace) => (Except.error e, mem, trace)

/-! ### The execution loop of process_intent
(src/legend-guardian-agent/src/api/routers/intent.py lines 116-162) -/

/-- The per-step loop: each step runs through `execute_step`; a normal
return marks the step `completed`, an exception marks it `failed`; outside
debug mode the first failure breaks the loop and the remaining steps stay
`pending`.  Returns (per-step statuses, memory, adapter-call trace). -/
def runPlan (env : Env) (st : Settings) (pe : PolicyEngine) (now : String) :
    MemoryStore → List Step → List String × MemoryStore × List String
  | mem, [] => ([], mem, [])
  | mem, step :: rest =>
    match executeStep env st pe mem now step.action step.params with
    | (Except.ok _, mem', tr) =>
      let (sts, mem'', tr') := runPlan env st pe now mem' rest
      ("completed" :: sts, mem'', tr ++ tr')
    | (Except.error _, mem', tr) =>
      if st.debug then
        let (sts, mem'', tr') := runPlan env st pe now mem' rest
        ("failed" :: sts, mem'', tr ++ tr')
      else
        ("failed" :: rest.map (fun _ => "pending"), mem', tr)

/-- The overall plan status of `process_intent` (intent.py lines
154-162): `planned` when execution was not requested, else `completed`
when every step completed, else `failed` when some step failed, else
`partial`. -/
def overallStatus (execute : Bool) (statuses : List String) : String :=
  if !execute then "planned"
  else if statuses.all (fun s => s == "completed") then "completed"
  else if statuses.any (fun s => s == "failed") then "failed"
  else "partial"

/-- One `process_intent` request against a fresh orchestrator: parse the
prompt (recording one episode), then, when `execute` is set, run the plan.
Returns (plan, overall status, memory, adapter-call trace). -/
def processIntent (env : Env) (st : Settings) (pe : PolicyEngine)
    (execute : Bool) (prompt : String) (now uid : String) (context : Val) :
    List Step × String × MemoryStore × List String :=
  let (plan, mem1) := parseIntentM pe (MemoryStore.empty 1000) now uid prompt context
  if execute then
    let (sts, mem2, tr) := runPlan env st pe now mem1 plan
    (plan, overallStatus true sts, mem2, tr)
  else
    (plan, "planned", mem1, [])

/-! ## Specification helpers and concrete test fixtures -/

/-- The last `n` entries of a list (in order): the specification-side
description of FIFO retention. -/
def lastN (n : Nat) (xs : List α) : List α :=
  xs.drop (xs.length - n)

/-- Timestamp-defaulting applied to a stored record. -/
def stamped (now : String) (v : Val) : Val :=
  valSetDefault v "timestamp" (Val.vStr now)

/-- Mock adapters for the compile-error scenario: every SDLC/depot call
succeeds, the engine's `compile` returns `{status: "error"}` as a normal
value (it does not raise). -/
def compileErrorEnv : Env where
  createWorkspace := fun _ _ => Except.ok (Val.vDict [])
  upsertEntities := fun _ => Except.ok (Val.vDict [])
  getEntities := Except.ok []
  createReview := fun _ _ => Except.ok (Val.vDict [])
  engineCompile := fun _ => Except.ok (Val.vDict [("status", Val.vStr "error")])
  transformToSchema := fun _ _ => Except.ok Val.vNull
  runTests := Except.ok []
  depotSearch := fun _ => Except.ok []
  depotPublish := fun _ => Except.ok (Val.vDict [])

/-- Mock adapters where `upsert_entities` raises: used to exercise a
handler failure inside `execute_step`. -/
def failingUpsertEnv : Env :=
  { compileErrorEnv with upsertEntities := fun _ => Except.error "upsert failed" }

/-- Production-mode settings (`debug = False`, the default). -/
def prodSettings : Settings where
  projectId := "demo-project"
  workspaceId := "demo-ws"
  debug := false

/-- The scenario prompt of the compile-error scenario. -/
def tradePrompt : String := "create a trade model then compile"

/-- The first episode of the tie-order counterexample (older). -/
def tieEp1 : Val := Val.vDict [("id", Val.vStr "e1"), ("prompt", Val.vStr "alpha")]

/-- The second episode of the tie-order counterexample (more recent). -/
def tieEp2 : Val := Val.vDict [("id", Val.vStr "e2"), ("prompt", Val.vStr "alpha")]

/-- A store holding the two equal-score episodes, oldest first. -/
def tieStore : MemoryStore := ⟨1000, [tieEp1, tieEp2], [], []⟩

/-- The per-step annotation performed by `validate_plan` on a
non-prohibited step: flag approval, then attach `validation_error` when
`check_action` raises. -/
def annotateStep (pe : PolicyEngine) (st : Step) : Step :=
  let st := if pe.requireApproval.contains st.action then
      { st with requiresApproval := true } else st
  match pe.checkAction st.action st.params with
  | Except.ok _ => st
  | Except.error e => { st with validationError := some e }

/-- Does the prompt satisfy at least one of the five parsing-rule
predicates of `parse_intent`? -/
def intentRuleMatches (prompt : String) : Bool :=
  let pl := pyLower prompt
  (strContainsSub pl "create" && strContainsSub pl "model")
  || strContainsSub pl "compile"
  || (strContainsSub pl "generate" && strContainsSub pl "service")
  || (strContainsSub pl "open" && (strContainsSub pl "pr" || strContainsSub pl "review"))
  || strContainsSub pl "publish"

/-! ## redact_pii (policies.py lines 172-187)

`redact_pii` runs `re.sub(pattern, "[REDACTED]", text)` for the four PII
patterns in order (email, SSN, credit card, phone).  The substitution is
modelled by a left-to-right scan over `List Char`: at each position the
engine's match attempt is a function `Option Char → List Char → Option Nat`
giving the chosen match length from the character context (the previous
character, for `\b`) and the remaining characters; a match is replaced by
the sentinel and scanning resumes after it (matching continues against
the original text, so the context char is the last matched character). -/

/-- Word-character test lifted to the option context (`none` = outside
the string, non-word). -/
def wordOpt : Option Char → Bool
  | some c => isWordChar c
  | none => false

/-- `\b` between two adjacent context characters. -/
def bdryO (x y : Option Char) : Bool :=
  wordOpt x != wordOpt y

/-- The fixed replacement sentinel. -/
def sentinel : List Char := ['[', 'R', 'E', 'D', 'A', 'C', 'T', 'E', 'D', ']']

/-- A match of a body predicate at the head of `cs`, in context `prev`:
the Python regex semantics `\b body \b` — some length `L` of body
characters with word boundaries on each side. -/
def patMatch (pbody : List Char → Bool) (prev : Option Char)
    (cs : List Char) (L : Nat) : Prop :=
  1 ≤ L ∧ L ≤ cs.length ∧ pbody (cs.take L) = true ∧
  bdryO prev (cs.get? 0) = true ∧ bdryO (cs.get? (L - 1)) (cs.get? L) = true

/-- The scanning pass of `re.sub` (fuel-based; the fuel is the remaining
length, and every match consumes at least one character). -/
def scanAux (ml : Option Char → List Char → Option Nat) :
    Nat → Option Char → List Char → List Char
  | 0, _, cs => cs
  | _ + 1, _, [] => []
  | fuel + 1, prev, c :: cs' =>
    match ml prev (c :: cs') with
    | none => c :: scanAux ml fuel (some c) cs'
    | some L =>
      sentinel ++
        scanAux ml fuel (some ((c :: cs').getD (L - 1) c)) ((c :: cs').drop L)

/-- One full `re.sub(pattern, "[REDACTED]", text)` pass. -/
def subRe (ml : Option Char → List Char → Option Nat) (cs : List Char) :
    List Char :=
  scanAux ml cs.length none cs

/-- No match of the engine `ml` at any position of `cs`, scanning in
context `prev`. -/
def NoMatchML (ml : Option Char → List Char → Option Nat) :
    Option Char → List Char → Prop
  | _, [] => True
  | prev, c :: cs => ml prev (c :: cs) = none ∧ NoMatchML ml (some c) cs

/-! ### Pattern bodies -/

/-- Digit at index `i`. -/
def digAt (l : List Char) (i : Nat) : Bool :=
  match l.get? i with
  | some c => c.isDigit
  | none => false

/-- Specific character at index `i`. -/
def chAt (l : List Char) (i : Nat) (c : Char) : Bool :=
  l.get? i == some c

/-- Body of the SSN pattern `\d{3}-\d{2}-\d{4}` (always 11 characters). -/
def ssnBody (l : List Char) : Bool :=
  decide (l.length = 11) && digAt l 0 && digAt l 1 && digAt l 2 &&
    chAt l 3 '-' && digAt l 4 && digAt l 5 && chAt l 6 '-' &&
    digAt l 7 && digAt l 8 && digAt l 9 && digAt l 10

/-- Body of a digit-group sequence `\d{s1} (sep? \d{s2}) …` — the shared
shape of the credit-card and phone patterns, with each inter-group
separator optional. -/
def grpSeq (sep : Char → Bool) : List Nat → List Char → Bool
  | [], l => l.isEmpty
  | sz :: more, l =>
    decide ((l.take sz).length = sz) && (l.take sz).all Char.isDigit &&
    (if more.isEmpty then (l.drop sz).isEmpty
     else
       (grpSeq sep more (l.drop sz) ||
        match l.drop sz with
        | s :: r => sep s && grpSeq sep more r
        | [] => false))

/-- Body of the credit-card pattern `\d{4}[-\s]?\d{4}[-\s]?\d{4}[-\s]?\d{4}`. -/
def ccBody (l : List Char) : Bool :=
  grpSeq isCcSep [4, 4, 4, 4] l

/-- Body of the phone pattern `\d{3}[-.]?\d{3}[-.]?\d{4}`. -/
def phoneBody (l : List Char) : Bool :=
  grpSeq isPhoneSep [3, 3, 4] l

/-- Body of the email pattern
`[A-Za-z0-9._%+-]+@[A-Za-z0-9.-]+\.[A-Z|a-z]{2,}`: an existential over
the local-part and domain-run lengths, the rest being the TLD. -/
def emailBody (l : List Char) : Bool :=
  (List.range (l.length + 1)).any fun a =>
    decide (1 ≤ a) && (l.take a).all isLocalChar && (l.get? a == some '@') &&
    ((List.range (l.length + 1)).any fun d =>
      decide (1 ≤ d) && ((l.drop (a + 1)).take d).all isDomainChar &&
      ((l.drop (a + 1)).get? d == some '.') &&
      decide (2 ≤ l.length - (a + 1 + d + 1)) &&
      (l.drop (a + 1 + d + 1)).all isTldChar)

/-- The character class of each pattern (every character of a match body
lies in it); all four exclude the sentinel's brackets. -/
def ssnClass (c : Char) : Bool := c.isDigit || c = '-'

/-- Credit-card match characters. -/
def ccClass (c : Char) : Bool := c.isDigit || isCcSep c

/-- Phone match characters. -/
def phoneClass (c : Char) : Bool := c.isDigit || isPhoneSep c

/-- Email match characters. -/
def emailClass (c : Char) : Bool :=
  isLocalChar c || c = '@' || isDomainChar c || isTldChar c

/-! ### Engine match-length functions -/

/-- The SSN engine match: fixed length 11 when the shape and boundaries
fit. -/
def ssnLen (prev : Option Char) (cs : List Char) : Option Nat :=
  if bdryO prev (cs.get? 0) && decide (11 ≤ cs.length) &&
      ssnBody (cs.take 11) && bdryO (cs.get? 10) (cs.get? 11) then
    some 11
  else none

/-- Length consumed by a digit-group sequence for one fixed choice of
which optional separators are consumed (`combo`, one flag per gap). -/
def comboLen (sep : Char → Bool) : List Nat → List Bool → List Char → Option Nat
  | [], _, _ => some 0
  | sz :: more, combo, l =>
    if decide ((l.take sz).length = sz) && (l.take sz).all Char.isDigit then
      match more, combo with
      | [], _ => some sz
      | _ :: _, b :: combo' =>
        if b then
          match l.drop sz with
          | s :: r =>
            if sep s then
              match comboLen sep more combo' r with
              | some L => some (sz + 1 + L)
              | none => none
            else none
          | [] => none
        else
          match comboLen sep more combo' (l.drop sz) with
          | some L => some (sz + L)
          | none => none
      | _ :: _, [] => none
    else none

/-- The engine match for a digit-group pattern at a position: the
backtracking order prefers consuming each optional separator (combos in
lexicographic separator-first order); the first combo whose shape fits
and whose trailing boundary holds gives the match length. -/
def grpLen (sep : Char → Bool) (sizes : List Nat) (combos : List (List Bool))
    (prev : Option Char) (cs : List Char) : Option Nat :=
  if bdryO prev (cs.get? 0) then
    combos.findSome? fun combo =>
      match comboLen sep sizes combo cs with
      | some L =>
        if bdryO (cs.get? (L - 1)) (cs.get? L) then some L else none
      | none => none
  else none

/-- Separator-consumption combos for three gaps, in engine preference
order. -/
def combos3 : List (List Bool) :=
  [[true, true, true], [true, true, false], [true, false, true],
   [true, false, false], [false, true, true], [false, true, false],
   [false, false, true], [false, false, false]]

/-- Separator-consumption combos for two gaps, in engine preference
order. -/
def combos2 : List (List Bool) :=
  [[true, true], [true, false], [false, true], [false, false]]

/-- The credit-card engine match. -/
def ccLen (prev : Option Char) (cs : List Char) : Option Nat :=
  grpLen isCcSep [4, 4, 4, 4] combos3 prev cs

/-- The phone engine match. -/
def phoneLen (prev : Option Char) (cs : List Char) : Option Nat :=
  grpLen isPhoneSep [3, 3, 4] combos2 prev cs

/-- Length of the maximal run of class-`p` characters at the head. -/
def maxRun (p : Char → Bool) (cs : List Char) : Nat :=
  (cs.takeWhile p).length

/-- The email engine match: the local part is the maximal run of local
characters (it cannot be shorter, since `@` is not a local character);
the domain length backtracks downward from the maximal domain run to the
nearest dot; the TLD backtracks downward from the maximal TLD run until
the trailing boundary holds. -/
def emailLen (prev : Option Char) (cs : List Char) : Option Nat :=
  if bdryO prev (cs.get? 0) then
    let a := maxRun isLocalChar cs
    if 1 ≤ a && (cs.get? a == some '@') then
      let afterAt := cs.drop (a + 1)
      let D := maxRun isDomainChar afterAt
      ((List.range D).reverse.map (· + 1)).findSome? fun d =>
        if afterAt.get? d == some '.' then
          let afterDot := afterAt.drop (d + 1)
          let T := maxRun isTldChar afterDot
          ((List.range (T - 1)).reverse.map (· + 2)).findSome? fun t =>
            if bdryO (afterDot.get? (t - 1)) (afterDot.get? t) then
              some (a + 1 + d + 1 + t)
            else none
        else none
    else none
  else none

/-- `PolicyEngine.redact_pii`: the four substitution passes in the order
the patterns are configured (email, SSN, credit card, phone). -/
def redactPii (s : String) : String :=
  String.mk (subRe phoneLen (subRe ccLen (subRe ssnLen (subRe emailLen s.toList))))

/-- Context compatibility between the scanned string (context `prev`)
and the scan output as embedded in the rewritten string (context
`prevY`): either the contexts agree, or a word boundary is known to hold
before the string's head in the scanned original. -/
def Compat (prev prevY : Option Char) (cs : List Char) : Prop :=
  prevY = prev ∨ bdryO prev (cs.get? 0) = true

/-- Along the scan of `qml`, at every position where the scanner steps
forward without matching, no `pbody` match starts either. -/
def ScanSafe (qml : Option Char → List Char → Option Nat)
    (pbody : List Char → Bool) :
    Nat → Option Char → List Char → Prop
  | 0, _, _ => True
  | _ + 1, _, [] => True
  | fuel + 1, prev, c :: cs' =>
    match qml prev (c :: cs') with
    | none =>
      (∀ L, ¬ patMatch pbody prev (c :: cs') L) ∧
        ScanSafe qml pbody fuel (some c) cs'
    | some L =>
      ScanSafe qml pbody fuel (some ((c :: cs').getD (L - 1) c))
        ((c :: cs').drop L)

/-! ## Theorems -/

/-! ### Memory bounds and slicing helpers -/

theorem pyTailSlice_eq_lastN (xs : List α) (n : Nat) (h : 1 ≤ n) :
    pyTailSlice xs n = lastN n xs := by
  have hn : n ≠ 0 := by omega
  simp [pyTailSlice, lastN, hn]

theorem lastN_of_length_le {xs : List α} {n : Nat} (h : xs.length ≤ n) :
    lastN n xs = xs := by
  have : xs.length - n = 0 := by omega
  simp [lastN, this]

theorem lastN_length (n : Nat) (xs : List α) :
    (lastN n xs).length = min n xs.length := by
  simp [lastN, List.length_drop]; omega

theorem lastN_append_left {n : Nat} (w t : List α) (h : n ≤ t.length) :
    lastN n (w ++ t) = lastN n t := by
  unfold lastN
  rw [List.drop_append_eq_append_drop]
  rw [List.drop_eq_nil_of_le (by simp [List.length_append]; omega),
    List.nil_append]
  congr 1
  simp [List.length_append]
  omega

theorem lastN_absorb (n : Nat) (xs ys : List α) :
    lastN n (lastN n xs ++ ys) = lastN n (xs ++ ys) := by
  rcases le_or_lt xs.length n with h | h
  · rw [lastN_of_length_le h]
  · have h2 : (lastN n xs).length = n := by rw [lastN_length]; omega
    have hle : n ≤ (lastN n xs ++ ys).length := by
      simp [List.length_append, h2]
    have hw := lastN_append_left (n := n)
      (xs.take (xs.length - n)) (lastN n xs ++ ys) hle
    rw [← List.append_assoc] at hw
    rw [← hw]
    have h3 : xs.take (xs.length - n) ++ lastN n xs = xs :=
      List.take_append_drop _ _
    rw [h3]

theorem addEpisode_maxEpisodes (s : MemoryStore) (now : String) (e : Val) :
    (s.addEpisode now e).maxEpisodes = s.maxEpisodes := rfl

theorem addEpisode_episodes (s : MemoryStore) (now : String) (e : Val)
    (hcap : 1 ≤ s.maxEpisodes) :
    (s.addEpisode now e).episodes =
      lastN s.maxEpisodes (s.episodes ++ [stamped now e]) := by
  show (if (s.episodes ++ [stamped now e]).length > s.maxEpisodes then
      pyTailSlice (s.episodes ++ [stamped now e]) s.maxEpisodes
    else s.episodes ++ [stamped now e]) = _
  split
  · exact pyTailSlice_eq_lastN _ _ hcap
  · exact (lastN_of_length_le (by omega)).symm

theorem addAction_actions (s : MemoryStore) (now : String) (a : Val)
    (hcap : 1 ≤ s.maxEpisodes) :
    (s.addAction now a).actions =
      lastN (s.maxEpisodes * 10) (s.actions ++ [stamped now a]) := by
  show (if (s.actions ++ [stamped now a]).length > s.maxEpisodes * 10 then
      pyTailSlice (s.actions ++ [stamped now a]) (s.maxEpisodes * 10)
    else s.actions ++ [stamped now a]) = _
  split
  · exact pyTailSlice_eq_lastN _ _ (by omega)
  · exact (lastN_of_length_le (by omega)).symm

theorem foldl_addEpisode_episodes (now : String) (cap : Nat) (hcap : 1 ≤ cap) :
    ∀ (l : List Val) (s : MemoryStore), s.maxEpisodes = cap →
      s.episodes.length ≤ cap →
      (l.foldl (fun st x => st.addEpisode now x) s).episodes =
        lastN cap (s.episodes ++ l.map (stamped now))
  | [], s, hm, hlen => by simp [lastN_of_length_le hlen]
  | x :: l, s, hm, hlen => by
    have hstep := addEpisode_episodes s now x (by omega)
    have hlen' : (s.addEpisode now x).episodes.length ≤ cap := by
      rw [hstep, lastN_length, hm]; omega
    rw [List.foldl_cons,
      foldl_addEpisode_episodes now cap hcap l (s.addEpisode now x)
        (by rw [addEpisode_maxEpisodes, hm]) hlen',
      hstep, hm, lastN_absorb]
    simp [List.append_assoc]

/-! ### C4 -/

/-- C4 (amended): with a configured capacity of at least 1, the append
operations preserve the bounds — after `add_episode` at most
`max_episodes` episodes are stored, after `add_action` at most
`10 * max_episodes` actions; `add_episode` on a full store evicts exactly
the oldest episode; and inserting `cap + 1` episodes into an empty store
leaves exactly the last `cap` of them, the oldest removed.
`import_history`, however, replaces the lists verbatim and does not
enforce the bound (see the counterexample). -/
theorem c4_memory_bound_and_fifo_eviction
    (s : MemoryStore) (now : String) (e a : Val)
    (hcap : 1 ≤ s.maxEpisodes) :
    (s.addEpisode now e).episodes.length ≤ s.maxEpisodes ∧
    (s.addAction now a).actions.length ≤ s.maxEpisodes * 10 ∧
    (s.episodes.length = s.maxEpisodes →
      (s.addEpisode now e).episodes = s.episodes.drop 1 ++ [stamped now e]) ∧
    (∀ (cap : Nat) (l : List Val), 1 ≤ cap → l.length = cap + 1 →
      (l.foldl (fun st x => st.addEpisode now x) (MemoryStore.empty cap)).episodes
        = (l.map (stamped now)).drop 1) := by
  refine ⟨?_, ?_, ?_, ?_⟩
  · rw [addEpisode_episodes s now e hcap, lastN_length]
    omega
  · rw [addAction_actions s now a hcap, lastN_length]
    omega
  · intro hfull
    rw [addEpisode_episodes s now e hcap]
    unfold lastN
    have hlen : (s.episodes ++ [stamped now e]).length - s.maxEpisodes = 1 := by
      simp [List.length_append, hfull]
    rw [hlen, List.drop_append_of_le_length (by omega)]
  · intro cap l hc hl
    rw [foldl_addEpisode_episodes now cap hc l (MemoryStore.empty cap) rfl
      (by simp [MemoryStore.empty])]
    show lastN cap ([] ++ l.map (stamped now)) = _
    rw [List.nil_append]
    unfold lastN
    have : (l.map (stamped now)).length - cap = 1 := by
      simp [List.length_map, hl]
    rw [this]

/-- C4 witness: the amended theorem applied at a concrete store of
capacity 2 holding one episode. -/
theorem c4_memory_bound_witness :
    ((MemoryStore.mk 2 [Val.vNull] [] []).addEpisode "t" Val.vNull).episodes.length ≤ 2 ∧
    ((MemoryStore.mk 2 [Val.vNull] [] []).addAction "t" Val.vNull).actions.length ≤ 2 * 10 ∧
    ((MemoryStore.mk 2 [Val.vNull] [] []).episodes.length = 2 →
      ((MemoryStore.mk 2 [Val.vNull] [] []).addEpisode "t" Val.vNull).episodes =
        [Val.vNull].drop 1 ++ [stamped "t" Val.vNull]) ∧
    (∀ (cap : Nat) (l : List Val), 1 ≤ cap → l.length = cap + 1 →
      (l.foldl (fun st x => st.addEpisode "t" x) (MemoryStore.empty cap)).episodes
        = (l.map (stamped "t")).drop 1) :=
  c4_memory_bound_and_fifo_eviction
    (MemoryStore.mk 2 [Val.vNull] [] []) "t" Val.vNull Val.vNull (by decide)

/-- C4 counterexample: `import_history` of a two-episode document into a
store configured with `max_episodes = 1` leaves 2 stored episodes — above
the configured capacity, so not every Memory Store operation preserves
the bound. -/
theorem c4_counterexample_import_exceeds_bound :
    ((MemoryStore.empty 1).importHistory
        ⟨some [Val.vNull, Val.vNull], none, none⟩).episodes.length = 2 ∧
    ((MemoryStore.empty 1).importHistory
        ⟨some [Val.vNull, Val.vNull], none, none⟩).maxEpisodes = 1 :=
  ⟨rfl, rfl⟩

/-! ### C10 -/

/-- C10: `get_recent_episodes(0)` and `get_recent_actions(0)` return the
whole stored list (the implementation slices with `[-0:]`), and for
`count > 0` they return the last `min(count, stored)` entries in
insertion order (a suffix of the store). -/
theorem c10_get_recent_zero_returns_all (s : MemoryStore) (c : Nat) :
    s.getRecentEpisodes 0 = s.episodes ∧
    s.getRecentActions 0 = s.actions ∧
    (0 < c →
      s.getRecentEpisodes c = s.episodes.drop (s.episodes.length - c) ∧
      (s.getRecentEpisodes c).length = min c s.episodes.length ∧
      s.getRecentEpisodes c <:+ s.episodes ∧
      s.getRecentActions c = s.actions.drop (s.actions.length - c) ∧
      (s.getRecentActions c).length = min c s.actions.length ∧
      s.getRecentActions c <:+ s.actions) := by
  have hepis : ∀ n : Nat, 0 < n →
      s.getRecentEpisodes n = s.episodes.drop (s.episodes.length - n) := by
    intro n hn
    unfold MemoryStore.getRecentEpisodes
    by_cases h : s.episodes.isEmpty
    · rw [if_pos h, List.isEmpty_iff.mp h]
      simp
    · rw [if_neg h]
      exact pyTailSlice_eq_lastN _ _ (by omega)
  have hacts : ∀ n : Nat, 0 < n →
      s.getRecentActions n = s.actions.drop (s.actions.length - n) := by
    intro n hn
    unfold MemoryStore.getRecentActions
    by_cases h : s.actions.isEmpty
    · rw [if_pos h, List.isEmpty_iff.mp h]
      simp
    · rw [if_neg h]
      exact pyTailSlice_eq_lastN _ _ (by omega)
  refine ⟨?_, ?_, ?_⟩
  · unfold MemoryStore.getRecentEpisodes
    by_cases h : s.episodes.isEmpty
    · rw [if_pos h, List.isEmpty_iff.mp h]
    · rw [if_neg h]
      rfl
  · unfold MemoryStore.getRecentActions
    by_cases h : s.actions.isEmpty
    · rw [if_pos h, List.isEmpty_iff.mp h]
    · rw [if_neg h]
      rfl
  · intro hc
    refine ⟨hepis c hc, ?_, ?_, hacts c hc, ?_, ?_⟩
    · rw [hepis c hc, List.length_drop]
      omega
    · rw [hepis c hc]
      exact List.drop_suffix _ _
    · rw [hacts c hc, List.length_drop]
      omega
    · rw [hacts c hc]
      exact List.drop_suffix _ _

/-- C10 witness: the theorem applied at a concrete two-episode store and
`count = 1`. -/
theorem c10_get_recent_witness :
    ((MemoryStore.mk 5 [Val.vNull, Val.vBool true] [Val.vNull] []).getRecentEpisodes 0 =
      [Val.vNull, Val.vBool true]) ∧
    ((MemoryStore.mk 5 [Val.vNull, Val.vBool true] [Val.vNull] []).getRecentActions 0 =
      [Val.vNull]) ∧
    (0 < 1 →
      (MemoryStore.mk 5 [Val.vNull, Val.vBool true] [Val.vNull] []).getRecentEpisodes 1 =
        [Val.vNull, Val.vBool true].drop ([Val.vNull, Val.vBool true].length - 1) ∧
      ((MemoryStore.mk 5 [Val.vNull, Val.vBool true] [Val.vNull] []).getRecentEpisodes 1).length =
        min 1 [Val.vNull, Val.vBool true].length ∧
      (MemoryStore.mk 5 [Val.vNull, Val.vBool true] [Val.vNull] []).getRecentEpisodes 1 <:+
        [Val.vNull, Val.vBool true] ∧
      (MemoryStore.mk 5 [Val.vNull, Val.vBool true] [Val.vNull] []).getRecentActions 1 =
        [Val.vNull].drop ([Val.vNull].length - 1) ∧
      ((MemoryStore.mk 5 [Val.vNull, Val.vBool true] [Val.vNull] []).getRecentActions 1).length =
        min 1 [Val.vNull].length ∧
      (MemoryStore.mk 5 [Val.vNull, Val.vBool true] [Val.vNull] []).getRecentActions 1 <:+
        [Val.vNull]) :=
  c10_get_recent_zero_returns_all
    (MemoryStore.mk 5 [Val.vNull, Val.vBool true] [Val.vNull] []) 1

/-! ### C3 -/

theorem insertByScore_perm (x : ℚ × Val) (l : List (ℚ × Val)) :
    List.Perm (insertByScore x l) (x :: l) := by
  induction l with
  | nil => rfl
  | cons y ys ih =>
    unfold insertByScore
    split
    · rfl
    · exact (ih.cons y).trans (List.Perm.swap x y ys)

theorem sortByScoreDesc_perm (l : List (ℚ × Val)) :
    List.Perm (sortByScoreDesc l) l := by
  induction l with
  | nil => rfl
  | cons x xs ih => exact (insertByScore_perm x (sortByScoreDesc xs)).trans (ih.cons x)

theorem mem_insertByScore {z x : ℚ × Val} {l : List (ℚ × Val)} :
    z ∈ insertByScore x l ↔ z = x ∨ z ∈ l := by
  rw [(insertByScore_perm x l).mem_iff, List.mem_cons]

theorem insertByScore_pairwise {x : ℚ × Val} {l : List (ℚ × Val)}
    (h : l.Pairwise (fun a b => b.1 ≤ a.1)) :
    (insertByScore x l).Pairwise (fun a b => b.1 ≤ a.1) := by
  induction l with
  | nil => simp [insertByScore]
  | cons y ys ih =>
    rw [List.pairwise_cons] at h
    unfold insertByScore
    split
    · rename_i hxy
      refine List.Pairwise.cons ?_ (List.Pairwise.cons h.1 h.2)
      intro z hz
      rcases List.mem_cons.mp hz with rfl | hz
      · exact hxy
      · exact le_trans (h.1 z hz) hxy
    · rename_i hxy
      refine List.Pairwise.cons ?_ (ih h.2)
      intro z hz
      rcases mem_insertByScore.mp hz with rfl | hz
      · exact le_of_not_le hxy
      · exact h.1 z hz

theorem sortByScoreDesc_pairwise (l : List (ℚ × Val)) :
    (sortByScoreDesc l).Pairwise (fun a b => b.1 ≤ a.1) := by
  induction l with
  | nil => simp [sortByScoreDesc]
  | cons x xs ih => exact insertByScore_pairwise ih

theorem filter_insertByScore (q : ℚ) (x : ℚ × Val) (l : List (ℚ × Val)) :
    (insertByScore x l).filter (fun p => decide (p.1 = q)) =
      if x.1 = q then x :: l.filter (fun p => decide (p.1 = q))
      else l.filter (fun p => decide (p.1 = q)) := by
  induction l with
  | nil => by_cases h : x.1 = q <;> simp [insertByScore, h]
  | cons y ys ih =>
    unfold insertByScore
    split
    · by_cases h : x.1 = q <;> simp [List.filter_cons, h]
    · rename_i hxy
      have hyx : x.1 < y.1 := lt_of_not_le hxy
      by_cases h : x.1 = q
      · have hy : ¬ (y.1 = q) := by
          intro hq
          rw [hq, h] at hyx
          exact lt_irrefl q hyx
        simp [List.filter_cons, hy, ih, h]
      · by_cases hy : y.1 = q <;> simp [List.filter_cons, hy, ih, h]

theorem filter_sortByScoreDesc (q : ℚ) (l : List (ℚ × Val)) :
    (sortByScoreDesc l).filter (fun p => decide (p.1 = q)) =
      l.filter (fun p => decide (p.1 = q)) := by
  induction l with
  | nil => rfl
  | cons x xs ih =>
    show (insertByScore x (sortByScoreDesc xs)).filter _ = _
    rw [filter_insertByScore, ih, List.filter_cons]
    by_cases h : x.1 = q <;> simp [h]

theorem mem_scoredOf {prompt : String} {l : List Val} {p : ℚ × Val}
    (hp : p ∈ l.filterMap (fun ep =>
      if episodeScore prompt ep > 0 then some (episodeScore prompt ep, ep)
      else none)) :
    p.1 = episodeScore prompt p.2 ∧ 0 < p.1 := by
  rcases List.mem_filterMap.mp hp with ⟨ep, _, hg⟩
  split at hg
  · rename_i hpos
    have := Option.some.inj hg
    subst this
    exact ⟨rfl, hpos⟩
  · exact absurd hg (by simp)

theorem scored_filter_sublist (prompt : String) (q : ℚ) (l : List Val) :
    List.Sublist
      (((l.filterMap (fun ep =>
        if episodeScore prompt ep > 0 then some (episodeScore prompt ep, ep)
        else none)).filter (fun p => decide (p.1 = q))).map Prod.snd)
      (l.filter (fun ep => decide (episodeScore prompt ep = q))) := by
  induction l with
  | nil => simp
  | cons ep rest ih =>
    rw [List.filterMap_cons]
    by_cases hpos : episodeScore prompt ep > 0
    · rw [if_pos hpos, List.filter_cons, List.filter_cons]
      by_cases hq : episodeScore prompt ep = q
      · rw [if_pos (show decide (((episodeScore prompt ep, ep) : ℚ × Val).1 = q) = true
            from decide_eq_true hq),
          if_pos (decide_eq_true hq), List.map_cons]
        exact ih.cons₂ ep
      · rw [if_neg (show ¬ decide (((episodeScore prompt ep, ep) : ℚ × Val).1 = q) = true
            from by simp [hq]),
          if_neg (by simp [hq])]
        exact ih
    · rw [if_neg hpos, List.filter_cons]
      by_cases hq : episodeScore prompt ep = q
      · rw [if_pos (decide_eq_true hq)]
        exact ih.trans (List.sublist_cons_self ep _)
      · rw [if_neg (by simp [hq])]
        exact ih

/-- C3 (amended): `find_similar_episodes(prompt, limit)` returns at most
`limit` episodes, all with positive token-overlap score
(`|query tokens ∩ episode tokens| / |query tokens|`), sorted by score
descending — but equal-score ties keep insertion order (oldest first,
because Python's stable sort with `reverse=True` preserves the original
order of equal keys), not most-recent-first: for every score the
result's episodes of that score form a sublist of the stored episode
list in order. -/
theorem c3_find_similar_episodes_spec (s : MemoryStore) (prompt : String)
    (limit : Nat) :
    (s.findSimilarEpisodes prompt limit).length ≤ limit ∧
    (∀ ep ∈ s.findSimilarEpisodes prompt limit, 0 < episodeScore prompt ep) ∧
    (s.findSimilarEpisodes prompt limit).Pairwise
      (fun a b => episodeScore prompt b ≤ episodeScore prompt a) ∧
    (∀ q : ℚ, List.Sublist
      ((s.findSimilarEpisodes prompt limit).filter
        (fun ep => decide (episodeScore prompt ep = q)))
      (s.episodes.filter (fun ep => decide (episodeScore prompt ep = q)))) := by
  have hres : s.findSimilarEpisodes prompt limit =
      ((sortByScoreDesc (s.episodes.filterMap (fun ep =>
        if episodeScore prompt ep > 0 then some (episodeScore prompt ep, ep)
        else none))).take limit).map Prod.snd := rfl
  set scored := s.episodes.filterMap (fun ep =>
    if episodeScore prompt ep > 0 then some (episodeScore prompt ep, ep)
    else none) with hscored
  set sorted := sortByScoreDesc scored with hsorted
  have hmem_take : ∀ p ∈ sorted.take limit, p ∈ scored := fun p hp =>
    (sortByScoreDesc_perm scored).subset ((List.take_sublist _ _).subset hp)
  refine ⟨?_, ?_, ?_, ?_⟩
  · rw [hres, List.length_map, List.length_take]
    exact min_le_left _ _
  · intro ep hep
    rw [hres] at hep
    rcases List.mem_map.mp hep with ⟨p, hp, rfl⟩
    have hinv := mem_scoredOf (hmem_take p hp)
    rw [← hinv.1]
    exact hinv.2
  · rw [hres, List.pairwise_map]
    have hpw : (sorted.take limit).Pairwise (fun a b => b.1 ≤ a.1) :=
      List.Pairwise.sublist (List.take_sublist _ _) (sortByScoreDesc_pairwise scored)
    refine hpw.imp_of_mem ?_
    intro a b ha hb hab
    have hia := (mem_scoredOf (hmem_take a ha)).1
    have hib := (mem_scoredOf (hmem_take b hb)).1
    rw [hia, hib] at hab
    exact hab
  · intro q
    rw [hres, List.filter_map]
    have hcongr : (sorted.take limit).filter
        ((fun ep => decide (episodeScore prompt ep = q)) ∘ Prod.snd) =
        (sorted.take limit).filter (fun p => decide (p.1 = q)) := by
      refine List.filter_congr ?_
      intro p hp
      have hinv := (mem_scoredOf (hmem_take p hp)).1
      simp only [Function.comp_apply, ← hinv]
    rw [hcongr]
    have h1 : List.Sublist
        (((sorted.take limit).filter (fun p => decide (p.1 = q))).map Prod.snd)
        ((sorted.filter (fun p => decide (p.1 = q))).map Prod.snd) :=
      ((List.take_sublist _ _).filter _).map _
    have h2 : sorted.filter (fun p => decide (p.1 = q)) =
        scored.filter (fun p => decide (p.1 = q)) :=
      filter_sortByScoreDesc q scored
    rw [h2] at h1
    exact h1.trans (scored_filter_sublist prompt q s.episodes)

/-- C3 counterexample: two stored episodes with the same prompt tie on
score; the query returns the OLDER episode first (insertion order), so
equal-score ties are not ordered most-recent-first as the claim states. -/
theorem c3_counterexample_tie_order :
    tieStore.findSimilarEpisodes "alpha" 5 = [tieEp1, tieEp2] ∧
    tieEp1 ≠ tieEp2 := by
  have h1 : episodeScore "alpha" tieEp1 = 1 := by
    show ((1 : Nat) : ℚ) / ((1 : Nat) : ℚ) = 1
    norm_num
  have h2 : episodeScore "alpha" tieEp2 = 1 := by
    show ((1 : Nat) : ℚ) / ((1 : Nat) : ℚ) = 1
    norm_num
  constructor
  · show ((sortByScoreDesc ([tieEp1, tieEp2].filterMap (fun ep =>
        if episodeScore "alpha" ep > 0
        then some (episodeScore "alpha" ep, ep) else none))).take 5).map
          Prod.snd = [tieEp1, tieEp2]
    norm_num [List.filterMap_cons, List.filterMap_nil, h1, h2,
      sortByScoreDesc, insertByScore]
  · decide

/-! ### C6 -/

theorem length_filter_not_eq (p : α → Bool) (l : List α) :
    (l.filter (fun a => !(p a))).length = l.length - (l.filter p).length := by
  induction l with
  | nil => rfl
  | cons a l ih =>
    have hle := List.length_filter_le p l
    by_cases h : p a <;> simp [List.filter_cons, h, ih] ; omega

theorem validatePlan_cons_prohibited (pe : PolicyEngine) (st : Step)
    (rest : List Step) (hp : pe.prohibitedActions.contains st.action = true) :
    pe.validatePlan (st :: rest) = pe.validatePlan rest := by
  show (if pe.prohibitedActions.contains st.action = true then pe.validatePlan rest
    else _) = pe.validatePlan rest
  rw [if_pos hp]

theorem validatePlan_cons_allowed (pe : PolicyEngine) (st : Step)
    (rest : List Step) (hp : pe.prohibitedActions.contains st.action = false) :
    pe.validatePlan (st :: rest) = annotateStep pe st :: pe.validatePlan rest := by
  simp only [PolicyEngine.validatePlan, hp, Bool.false_eq_true, if_false,
    annotateStep]
  set stA := if pe.requireApproval.contains st.action then
    { st with requiresApproval := true } else st with hstA
  cases hc : pe.checkAction stA.action stA.params <;> simp only [hc]

/-- C6: `validate_plan` removes exactly the prohibited-action steps
(returning `len(input) - k` steps, where `k` counts prohibited steps);
every non-prohibited step is kept in order, with the approval flag set
where configured and a `validation_error` annotation attached — rather
than the step dropped — when `check_action` raises. -/
theorem c6_validate_plan_length_and_annotations (pe : PolicyEngine)
    (steps : List Step) :
    pe.validatePlan steps =
      (steps.filter (fun st => !(pe.prohibitedActions.contains st.action))).map
        (annotateStep pe) ∧
    (pe.validatePlan steps).length =
      steps.length -
        (steps.filter (fun st => pe.prohibitedActions.contains st.action)).length := by
  have hmain : pe.validatePlan steps =
      (steps.filter (fun st => !(pe.prohibitedActions.contains st.action))).map
        (annotateStep pe) := by
    induction steps with
    | nil => rfl
    | cons st rest ih =>
      by_cases hp : pe.prohibitedActions.contains st.action
      · rw [validatePlan_cons_prohibited pe st rest hp, List.filter_cons,
          if_neg (by rw [hp]; simp), ih]
      · have hp' : pe.prohibitedActions.contains st.action = false := by
          simpa using hp
        rw [validatePlan_cons_allowed pe st rest hp', List.filter_cons,
          if_pos (by rw [hp']; rfl), List.map_cons, ih]
  refine ⟨hmain, ?_⟩
  rw [hmain, List.length_map, length_filter_not_eq]

/-! ### C5 -/

/-- C5: `parse_intent` is a total function of the prompt — the Lean
embedding returns a plan for every prompt, mirroring that the only
raising subroutine (`check_action`) is caught inside `validate_plan` —
and a prompt matching none of the five rule predicates (in particular the
empty prompt) yields the empty plan rather than an error. -/
theorem c5_parse_intent_never_raises_empty_plan :
    (∀ (pe : PolicyEngine) (prompt : String), intentRuleMatches prompt = false →
      parseIntent pe prompt = []) ∧
    (∀ pe : PolicyEngine, parseIntent pe "" = []) := by
  constructor
  · intro pe prompt h
    unfold parseIntent
    simp only [intentRuleMatches, Bool.or_eq_false_iff] at h
    obtain ⟨⟨⟨⟨h1, h2⟩, h3⟩, h4⟩, h5⟩ := h
    simp only [rawIntentSteps, h1, h2, h3, h4, h5, Bool.false_eq_true, if_false,
      List.append_nil, List.nil_append]
    rfl
  · intro pe
    rfl

/-- C5 witness: a concrete keyword-free prompt parses to the empty plan. -/
theorem c5_parse_intent_witness :
    intentRuleMatches "hello world" = false ∧
    parseIntent defaultPolicies "hello world" = [] :=
  ⟨by decide,
   c5_parse_intent_never_raises_empty_plan.1 defaultPolicies "hello world"
     (by decide)⟩

/-! ### C7 -/

mutual

theorem piiDetected_of_leaf : ∀ (v : Val) (s : String), s ∈ stringLeaves v →
    piiMatchAny s = true → piiDetected v = true
  | Val.vStr t, s, hmem, hm => by
    simp only [stringLeaves, List.mem_singleton] at hmem
    subst hmem
    simpa [piiDetected] using hm
  | Val.vDict fs, s, hmem, hm => by
    simp only [stringLeaves] at hmem
    simpa [piiDetected] using piiDetectedFields_of_leaf fs s hmem hm
  | Val.vList xs, s, hmem, hm => by
    simp only [stringLeaves] at hmem
    simpa [piiDetected] using piiDetectedList_of_leaf xs s hmem hm
  | Val.vInt _, s, hmem, _ => by simp [stringLeaves] at hmem
  | Val.vBool _, s, hmem, _ => by simp [stringLeaves] at hmem
  | Val.vNull, s, hmem, _ => by simp [stringLeaves] at hmem

theorem piiDetectedList_of_leaf : ∀ (l : List Val) (s : String),
    s ∈ stringLeavesList l → piiMatchAny s = true → piiDetectedList l = true
  | [], s, hmem, _ => by simp [stringLeavesList] at hmem
  | v :: vs, s, hmem, hm => by
    simp only [stringLeavesList, List.mem_append] at hmem
    simp only [piiDetectedList, Bool.or_eq_true]
    rcases hmem with h | h
    · exact Or.inl (piiDetected_of_leaf v s h hm)
    · exact Or.inr (piiDetectedList_of_leaf vs s h hm)

theorem piiDetectedFields_of_leaf : ∀ (l : List (String × Val)) (s : String),
    s ∈ stringLeavesFields l → piiMatchAny s = true → piiDetectedFields l = true
  | [], s, hmem, _ => by simp [stringLeavesFields] at hmem
  | (k, v) :: fs, s, hmem, hm => by
    simp only [stringLeavesFields, List.mem_append] at hmem
    simp only [piiDetectedFields, Bool.or_eq_true]
    rcases hmem with h | h
    · exact Or.inl (piiDetected_of_leaf v s h hm)
    · exact Or.inr (piiDetectedFields_of_leaf fs s h hm)

end

/-- C7: `check_action` raises exactly the PII error whenever any string
leaf of the params — at any nesting depth through dicts and lists —
matches one of the configured PII patterns; in particular it raises on
`{"email": "a@b.com"}` for every action and policy configuration, and
`check_action("create_model", {"name": "Clean"})` does not raise. -/
theorem c7_check_action_pii_detection (pe : PolicyEngine) (action : String)
    (params : List (String × Val)) (s : String)
    (hs : s ∈ stringLeavesFields params) (hm : piiMatchAny s = true) :
    pe.checkAction action params = Except.error "PII detected in parameters" ∧
    (∀ (a2 : String) (pe2 : PolicyEngine),
      pe2.checkAction a2 [("email", Val.vStr "a@b.com")] =
        Except.error "PII detected in parameters") ∧
    defaultPolicies.checkAction "create_model" [("name", Val.vStr "Clean")] =
      Except.ok () := by
  refine ⟨?_, ?_, ?_⟩
  · have hd : piiDetectedFields params = true :=
      piiDetectedFields_of_leaf params s hs hm
    unfold PolicyEngine.checkAction
    rw [if_pos hd]
  · intro a2 pe2
    unfold PolicyEngine.checkAction
    rw [if_pos (by decide)]
  · rfl

/-- C7 witness: a PII-bearing string (an SSN-like value) nested two
levels deep inside the params triggers the error. -/
theorem c7_check_action_pii_witness :
    ("999-99-1234" ∈ stringLeavesFields
      [("profile", Val.vList [Val.vDict [("contact", Val.vStr "999-99-1234")]])]) ∧
    (piiMatchAny "999-99-1234" = true) ∧
    (defaultPolicies.checkAction "compile"
        [("profile", Val.vList [Val.vDict [("contact", Val.vStr "999-99-1234")]])] =
      Except.error "PII detected in parameters" ∧
    (∀ (a2 : String) (pe2 : PolicyEngine),
      pe2.checkAction a2 [("email", Val.vStr "a@b.com")] =
        Except.error "PII detected in parameters") ∧
    defaultPolicies.checkAction "create_model" [("name", Val.vStr "Clean")] =
      Except.ok ()) :=
  ⟨by decide, by decide,
   c7_check_action_pii_detection defaultPolicies "compile"
     [("profile", Val.vList [Val.vDict [("contact", Val.vStr "999-99-1234")]])]
     "999-99-1234" (by decide) (by decide)⟩

/-! ### C9 -/

/-- C9: for an action absent from the dispatch table, `execute_step`
raises the unknown-action error immediately and leaves everything
untouched: the returned memory is the input store (no ActionRecord), the
adapter-call trace is empty, and the error is the unknown-action message
(raised before the policy check runs, so no policy error can be
produced). -/
theorem c9_unknown_action_no_effects (env : Env) (st : Settings)
    (pe : PolicyEngine) (mem : MemoryStore) (now action : String)
    (params : List (String × Val))
    (h : handlerTable.lookup action = none) :
    executeStep env st pe mem now action params =
      (Except.error ("Unknown action: " ++ action), mem, []) := by
  unfold executeStep
  rw [h]

/-- C9 witness: the theorem applied at the concrete unknown action
`"frobnicate"`. -/
theorem c9_unknown_action_witness :
    executeStep compileErrorEnv prodSettings defaultPolicies
      (MemoryStore.empty 1000) "t" "frobnicate" [] =
      (Except.error ("Unknown action: " ++ "frobnicate"),
       MemoryStore.empty 1000, []) :=
  c9_unknown_action_no_effects compileErrorEnv prodSettings defaultPolicies
    (MemoryStore.empty 1000) "t" "frobnicate" [] (by rfl)

/-! ### C2 -/

theorem addAction_no_evict (s : MemoryStore) (now : String) (a : Val)
    (h : s.actions.length < s.maxEpisodes * 10) :
    (s.addAction now a).actions = s.actions ++ [stamped now a] := by
  show (if (s.actions ++ [stamped now a]).length > s.maxEpisodes * 10 then
      pyTailSlice (s.actions ++ [stamped now a]) (s.maxEpisodes * 10)
    else s.actions ++ [stamped now a]) = _
  rw [if_neg (by simp only [List.length_append, List.length_singleton]; omega)]

/-- C2 (amended): when the action is in the dispatch table, exactly one
ActionRecord is appended — via `add_action` — only on the path where both
the policy check and the handler return normally; when the handler or the
policy check raises, the memory store is left unchanged (the record line
is never reached).  With room below the retention bound the success path
appends exactly one record. -/
theorem c2_record_only_on_success (env : Env) (st : Settings)
    (pe : PolicyEngine) (mem : MemoryStore) (now action : String)
    (params : List (String × Val)) (h : Handler)
    (hh : handlerTable.lookup action = some h) :
    (∀ (r : Val) (trace : List String),
      pe.checkAction action params = Except.ok () →
      h env st params = (Except.ok r, trace) →
      (executeStep env st pe mem now action params).2.1 =
        mem.addAction now (Val.vDict
          [("action", Val.vStr action), ("params", Val.vDict params),
           ("result", r), ("timestamp", Val.vStr now)])) ∧
    (∀ (r : Val) (trace : List String),
      pe.checkAction action params = Except.ok () →
      h env st params = (Except.ok r, trace) →
      mem.actions.length < mem.maxEpisodes * 10 →
      (executeStep env st pe mem now action params).2.1.actions =
        mem.actions ++ [stamped now (Val.vDict
          [("action", Val.vStr action), ("params", Val.vDict params),
           ("result", r), ("timestamp", Val.vStr now)])]) ∧
    (∀ (e : String) (trace : List String),
      pe.checkAction action params = Except.ok () →
      h env st params = (Except.error e, trace) →
      (executeStep env st pe mem now action params).2.1 = mem) ∧
    (∀ (e : String),
      pe.checkAction action params = Except.error e →
      (executeStep env st pe mem now action params).2.1 = mem) := by
  refine ⟨?_, ?_, ?_, ?_⟩
  · intro r trace hchk hrun
    unfold executeStep
    simp only [hh, hchk, hrun]
  · intro r trace hchk hrun hroom
    unfold executeStep
    simp only [hh, hchk, hrun]
    exact addAction_no_evict mem now _ hroom
  · intro e trace hchk hrun
    unfold executeStep
    simp only [hh, hchk, hrun]
  · intro e hchk
    unfold executeStep
    simp only [hh, hchk]

/-- C2 witness: the theorem applied to the `import_model` action (whose
handler succeeds without adapter calls) on an empty store. -/
theorem c2_record_only_on_success_witness :
    (∀ (r : Val) (trace : List String),
      defaultPolicies.checkAction "import_model" [] = Except.ok () →
      hImportModel compileErrorEnv prodSettings [] = (Except.ok r, trace) →
      (executeStep compileErrorEnv prodSettings defaultPolicies
        (MemoryStore.empty 3) "t" "import_model" []).2.1 =
        (MemoryStore.empty 3).addAction "t" (Val.vDict
          [("action", Val.vStr "import_model"), ("params", Val.vDict []),
           ("result", r), ("timestamp", Val.vStr "t")])) ∧
    (∀ (r : Val) (trace : List String),
      defaultPolicies.checkAction "import_model" [] = Except.ok () →
      hImportModel compileErrorEnv prodSettings [] = (Except.ok r, trace) →
      (MemoryStore.empty 3).actions.length < (MemoryStore.empty 3).maxEpisodes * 10 →
      (executeStep compileErrorEnv prodSettings defaultPolicies
        (MemoryStore.empty 3) "t" "import_model" []).2.1.actions =
        (MemoryStore.empty 3).actions ++ [stamped "t" (Val.vDict
          [("action", Val.vStr "import_model"), ("params", Val.vDict []),
           ("result", r), ("timestamp", Val.vStr "t")])]) ∧
    (∀ (e : String) (trace : List String),
      defaultPolicies.checkAction "import_model" [] = Except.ok () →
      hImportModel compileErrorEnv prodSettings [] = (Except.error e, trace) →
      (executeStep compileErrorEnv prodSettings defaultPolicies
        (MemoryStore.empty 3) "t" "import_model" []).2.1 = MemoryStore.empty 3) ∧
    (∀ (e : String),
      defaultPolicies.checkAction "import_model" [] = Except.error e →
      (executeStep compileErrorEnv prodSettings defaultPolicies
        (MemoryStore.empty 3) "t" "import_model" []).2.1 = MemoryStore.empty 3) :=
  c2_record_only_on_success compileErrorEnv prodSettings defaultPolicies
    (MemoryStore.empty 3) "t" "import_model" [] hImportModel (by rfl)

/-- C2 counterexample: executing `create_model` with an adapter whose
`upsert_entities` raises leaves zero ActionRecords in the store — the
failed step is not recorded, contradicting the claim that a record is
appended when the handler raises. -/
theorem c2_counterexample_failure_not_recorded :
    (executeStep failingUpsertEnv prodSettings defaultPolicies
      (MemoryStore.empty 1000) "t" "create_model"
      [("name", Val.vStr "Trade")]).2.1.actions = [] ∧
    (executeStep failingUpsertEnv prodSettings defaultPolicies
      (MemoryStore.empty 1000) "t" "create_model"
      [("name", Val.vStr "Trade")]).1 = Except.error "upsert failed" := by
  exact ⟨rfl, rfl⟩

/-! ### C1 -/

/-- C1 (amended): parsing `"create a trade model then compile"` yields
exactly the two-step plan `[create_model {name: "Trade"}, compile {}]`;
executing it with adapters whose `compile` returns `{status: "error"}`
(and whose other calls succeed) marks BOTH steps completed — the engine
result's status field is never inspected, and a step only fails on a
raised exception — so the overall plan status is `"completed"`, three
adapter calls are attempted (`upsert_entities`, `get_entities`,
`compile`), and exactly 2 new ActionRecords are appended to the Memory
Store. -/
theorem c1_trade_compile_scenario :
    (processIntent compileErrorEnv prodSettings defaultPolicies true
      tradePrompt "t0" "uid" Val.vNull).1 =
      [{ action := "create_model", params := [("name", Val.vStr "Trade")] },
       { action := "compile", params := [] }] ∧
    (processIntent compileErrorEnv prodSettings defaultPolicies true
      tradePrompt "t0" "uid" Val.vNull).2.1 = "completed" ∧
    (processIntent compileErrorEnv prodSettings defaultPolicies true
      tradePrompt "t0" "uid" Val.vNull).2.2.2 =
      ["sdlc.upsert_entities", "sdlc.get_entities", "engine.compile"] ∧
    (processIntent compileErrorEnv prodSettings defaultPolicies true
      tradePrompt "t0" "uid" Val.vNull).2.2.1.actions.length = 2 := by
  refine ⟨by decide, by decide, by decide, by decide⟩

/-- C1 counterexample: in the same scenario the overall status is
`"completed"`, not the claimed `"failed"`, and the number of adapter
calls attempted is 3, not the claimed 2. -/
theorem c1_counterexample_status_and_calls :
    (processIntent compileErrorEnv prodSettings defaultPolicies true
      tradePrompt "t0" "uid" Val.vNull).2.1 ≠ "failed" ∧
    (processIntent compileErrorEnv prodSettings defaultPolicies true
      tradePrompt "t0" "uid" Val.vNull).2.2.2.length ≠ 2 := by
  refine ⟨by decide, by decide⟩

/-! ### C8: generic substitution-scan lemmas -/

theorem scanAux_id (ml : Option Char → List Char → Option Nat) :
    ∀ (fuel : Nat) (prev : Option Char) (cs : List Char),
      NoMatchML ml prev cs → scanAux ml fuel prev cs = cs
  | 0, _, _, _ => rfl
  | _ + 1, _, [], _ => rfl
  | fuel + 1, prev, c :: cs', h => by
    have h1 : ml prev (c :: cs') = none := h.1
    show (match ml prev (c :: cs') with
      | none => c :: scanAux ml fuel (some c) cs'
      | some L => sentinel ++
          scanAux ml fuel (some ((c :: cs').getD (L - 1) c)) ((c :: cs').drop L))
      = c :: cs'
    rw [h1]
    rw [scanAux_id ml fuel (some c) cs' h.2]

theorem noMatchML_drop (ml : Option Char → List Char → Option Nat) :
    ∀ (L : Nat) (cs : List Char) (prev : Option Char) (d : Char), 1 ≤ L →
      NoMatchML ml prev cs → NoMatchML ml (some (cs.getD (L - 1) d)) (cs.drop L)
  | _, [], _, _, _, _ => by rw [List.drop_nil]; exact trivial
  | 1, c :: cs', _, d, _, h => by
    show NoMatchML ml (some ((c :: cs').getD 0 d)) cs'
    exact h.2
  | L + 2, c :: cs', _, d, _, h => by
    show NoMatchML ml (some (cs'.getD (L + 1 - 1) d)) (cs'.drop (L + 1))
    exact noMatchML_drop ml (L + 1) cs' (some c) d (by omega) h.2

theorem scanSafe_self (qml : Option Char → List Char → Option Nat)
    (pbody : List Char → Bool)
    (hcomp : ∀ prev cs, qml prev cs = none → ∀ L, ¬ patMatch pbody prev cs L) :
    ∀ (fuel : Nat) (prev : Option Char) (cs : List Char),
      ScanSafe qml pbody fuel prev cs
  | 0, _, _ => trivial
  | _ + 1, _, [] => trivial
  | fuel + 1, prev, c :: cs' => by
    show ScanSafe qml pbody (fuel + 1) prev (c :: cs')
    unfold ScanSafe
    cases hq : qml prev (c :: cs') with
    | none => exact ⟨hcomp prev (c :: cs') hq, scanSafe_self qml pbody hcomp fuel (some c) cs'⟩
    | some L => exact scanSafe_self qml pbody hcomp fuel _ _

theorem scanSafe_of_noMatch (qml pml : Option Char → List Char → Option Nat)
    (pbody : List Char → Bool)
    (hcomp : ∀ prev cs, pml prev cs = none → ∀ L, ¬ patMatch pbody prev cs L)
    (hq1 : ∀ prev cs L, qml prev cs = some L → 1 ≤ L) :
    ∀ (fuel : Nat) (prev : Option Char) (cs : List Char),
      NoMatchML pml prev cs → ScanSafe qml pbody fuel prev cs
  | 0, _, _, _ => trivial
  | _ + 1, _, [], _ => trivial
  | fuel + 1, prev, c :: cs', h => by
    unfold ScanSafe
    cases hq : qml prev (c :: cs') with
    | none =>
      exact ⟨hcomp prev (c :: cs') h.1,
        scanSafe_of_noMatch qml pml pbody hcomp hq1 fuel (some c) cs' h.2⟩
    | some L =>
      exact scanSafe_of_noMatch qml pml pbody hcomp hq1 fuel _ _
        (noMatchML_drop pml L (c :: cs') prev c (hq1 prev (c :: cs') L hq) h)

theorem scanAux_cons_none (qml : Option Char → List Char → Option Nat)
    (fuel : Nat) (prev : Option Char) (c : Char) (cs' : List Char)
    (h : qml prev (c :: cs') = none) :
    scanAux qml (fuel + 1) prev (c :: cs') =
      c :: scanAux qml fuel (some c) cs' := by
  show (match qml prev (c :: cs') with
    | none => c :: scanAux qml fuel (some c) cs'
    | some L => sentinel ++
        scanAux qml fuel (some ((c :: cs').getD (L - 1) c))
          ((c :: cs').drop L)) = _
  rw [h]

theorem scanAux_cons_some (qml : Option Char → List Char → Option Nat)
    (fuel : Nat) (prev : Option Char) (c : Char) (cs' : List Char) (L : Nat)
    (h : qml prev (c :: cs') = some L) :
    scanAux qml (fuel + 1) prev (c :: cs') =
      sentinel ++ scanAux qml fuel (some ((c :: cs').getD (L - 1) c))
        ((c :: cs').drop L) := by
  show (match qml prev (c :: cs') with
    | none => c :: scanAux qml fuel (some c) cs'
    | some L => sentinel ++
        scanAux qml fuel (some ((c :: cs').getD (L - 1) c))
          ((c :: cs').drop L)) = _
  rw [h]

theorem scanStruct (qml : Option Char → List Char → Option Nat)
    (hqb : ∀ prev cs L, qml prev cs = some L → 1 ≤ L ∧ L ≤ cs.length) :
    ∀ (fuel : Nat) (prev : Option Char) (cs : List Char), cs.length ≤ fuel →
      scanAux qml fuel prev cs = cs ∨
      ∃ j L rest',
        scanAux qml fuel prev cs = cs.take j ++ sentinel ++ rest' ∧
        j + L ≤ cs.length ∧ 1 ≤ L ∧
        qml (if j = 0 then prev else some (cs.getD (j - 1) ' ')) (cs.drop j) =
          some L
  | 0, _, cs, hf => Or.inl rfl
  | _ + 1, _, [], _ => Or.inl rfl
  | fuel + 1, prev, c :: cs', hf => by
    cases hq : qml prev (c :: cs') with
    | some L =>
      rw [scanAux_cons_some qml fuel prev c cs' L hq]
      refine Or.inr ⟨0, L, scanAux qml fuel (some ((c :: cs').getD (L - 1) c))
        ((c :: cs').drop L), ?_, ?_, ?_, ?_⟩
      · rw [List.take_zero, List.nil_append]
      · have := hqb prev (c :: cs') L hq
        omega
      · exact (hqb prev (c :: cs') L hq).1
      · simpa using hq
    | none =>
      rw [scanAux_cons_none qml fuel prev c cs' hq]
      rcases scanStruct qml hqb fuel (some c) cs'
          (by simpa using Nat.le_of_succ_le_succ hf) with
        heq | ⟨j', L', rest', heq, hlen, hL1, hqm⟩
      · exact Or.inl (by rw [heq])
      · refine Or.inr ⟨j' + 1, L', rest', ?_, ?_, hL1, ?_⟩
        · rw [heq, List.take_succ_cons, List.cons_append, List.cons_append]
        · simp only [List.length_cons]
          omega
        · have hdrop : (c :: cs').drop (j' + 1) = cs'.drop j' := rfl
          rw [if_neg (by omega), hdrop]
          cases j' with
          | zero => simpa using hqm
          | succ k =>
            have hgd : (c :: cs').getD (k + 1 + 1 - 1) ' ' = cs'.getD (k + 1 - 1) ' ' := rfl
            rw [hgd]
            simpa using hqm

theorem patMatch_transfer (pbody : List Char → Bool) (prevY prevZ : Option Char)
    (B restY restZ : List Char) (L : Nat)
    (hm : patMatch pbody prevY (B ++ restY) L) (hL : L ≤ B.length)
    (hlead : bdryO prevZ ((B ++ restZ).get? 0) = true)
    (hseam : L = B.length →
      bdryO ((B ++ restZ).get? (L - 1)) ((B ++ restZ).get? L) = true) :
    patMatch pbody prevZ (B ++ restZ) L := by
  obtain ⟨hL1, hLle, hbody, hlead', htrail⟩ := hm
  refine ⟨hL1, ?_, ?_, hlead, ?_⟩
  · rw [List.length_append]
    omega
  · rw [List.take_append_of_le_length hL]
    rw [List.take_append_of_le_length hL] at hbody
    exact hbody
  · rcases Nat.lt_or_ge L B.length with hlt | hge
    · rw [List.get?_append (by omega : L - 1 < B.length),
        List.get?_append hlt]
      rw [List.get?_append (by omega : L - 1 < B.length),
        List.get?_append hlt] at htrail
      exact htrail
    · exact hseam (by omega)

theorem no_patMatch_in_sentinel (pbody : List Char → Bool) (pclass : Char → Bool)
    (hclass : ∀ l, pbody l = true → ∀ c ∈ l, pclass c = true)
    (hbr2 : pclass ']' = false)
    (hcontent : ∀ l, pbody l = true → ∃ c ∈ l, c.isDigit = true ∨ c = '@')
    (k : Nat) (hk : k < 10) (T' : List Char) (ctx : Option Char) (L : Nat) :
    ¬ patMatch pbody ctx (sentinel.drop k ++ T') L := by
  rintro ⟨hL1, hLle, hbody, -, -⟩
  by_cases hcase : L ≤ 9 - k
  · obtain ⟨c, hc, hd⟩ := hcontent _ hbody
    have hsub : c ∈ sentinel := by
      have h1 : (sentinel.drop k ++ T').take L = (sentinel.drop k).take L := by
        apply List.take_append_of_le_length
        rw [List.length_drop]
        have hsl : sentinel.length = 10 := rfl
        omega
      rw [h1] at hc
      exact (List.drop_sublist _ _).subset ((List.take_sublist _ _).subset hc)
    simp only [sentinel, List.mem_cons, List.not_mem_nil, or_false] at hsub
    rcases hsub with rfl|rfl|rfl|rfl|rfl|rfl|rfl|rfl|rfl|rfl <;>
      revert hd <;> decide
  · have hidx : (sentinel.drop k ++ T').get? (9 - k) = some ']' := by
      rw [List.get?_append
        (show 9 - k < (sentinel.drop k).length by
          rw [List.length_drop]
          have hsl : sentinel.length = 10 := rfl
          omega)]
      rw [List.get?_drop]
      have h9 : k + (9 - k) = 9 := by omega
      rw [h9]
      rfl
    have hmem : (']' : Char) ∈ (sentinel.drop k ++ T').take L := by
      have h2 : ((sentinel.drop k ++ T').take L).get? (9 - k) = some ']' := by
        rw [List.get?_take (by omega : 9 - k < L)]
        exact hidx
      exact List.get?_mem h2
    have h3 := hclass _ hbody ']' hmem
    rw [hbr2] at h3
    exact Bool.noConfusion h3

theorem get?_eq_some_getD {l : List Char} {i : Nat} (h : i < l.length) (d : Char) :
    l.get? i = some (l.getD i d) := by
  rw [List.getD_eq_get?]
  cases hx : l.get? i with
  | none => exact absurd (List.get?_eq_none.mp hx) (by omega)
  | some x => rfl

theorem noMatchML_sentinel_append
    (pml : Option Char → List Char → Option Nat)
    (pbody : List Char → Bool) (pclass : Char → Bool)
    (hp_sound : ∀ prev cs L, pml prev cs = some L → patMatch pbody prev cs L)
    (hclass : ∀ l, pbody l = true → ∀ c ∈ l, pclass c = true)
    (hbr2 : pclass ']' = false)
    (hcontent : ∀ l, pbody l = true → ∃ c ∈ l, c.isDigit = true ∨ c = '@')
    (prevY : Option Char) (T' : List Char)
    (hT : NoMatchML pml (some ']') T') :
    NoMatchML pml prevY (sentinel ++ T') := by
  have hnone : ∀ (k : Nat), k < 10 → ∀ ctx : Option Char,
      pml ctx (sentinel.drop k ++ T') = none := by
    intro k hk ctx
    cases hp : pml ctx (sentinel.drop k ++ T') with
    | none => rfl
    | some L =>
      exact absurd (hp_sound _ _ _ hp)
        (no_patMatch_in_sentinel pbody pclass hclass hbr2 hcontent k hk T' ctx L)
  exact ⟨hnone 0 (by omega) prevY, hnone 1 (by omega) (some '['),
    hnone 2 (by omega) (some 'R'), hnone 3 (by omega) (some 'E'),
    hnone 4 (by omega) (some 'D'), hnone 5 (by omega) (some 'A'),
    hnone 6 (by omega) (some 'C'), hnone 7 (by omega) (some 'T'),
    hnone 8 (by omega) (some 'E'), hnone 9 (by omega) (some 'D'), hT⟩

/-- Master lemma: scanning `cs` with the `qml` substitution produces a
string with no `pml` match anywhere, provided (i) every position the
scanner stepped over without matching admits no `pbody` match
(`ScanSafe`), (ii) `qml` matches are genuine (their boundaries hold), and
(iii) `pbody` matches cannot live inside the sentinel.  The context pair
is compatible: equal, or a boundary is known before the head. -/
theorem scan_no_match
    (qml pml : Option Char → List Char → Option Nat)
    (pbody : List Char → Bool) (pclass : Char → Bool)
    (hq_sound : ∀ prev cs L, qml prev cs = some L →
      1 ≤ L ∧ L ≤ cs.length ∧ bdryO prev (cs.get? 0) = true ∧
      bdryO (cs.get? (L - 1)) (cs.get? L) = true)
    (hp_sound : ∀ prev cs L, pml prev cs = some L → patMatch pbody prev cs L)
    (hclass : ∀ l, pbody l = true → ∀ c ∈ l, pclass c = true)
    (hbrL : pclass '[' = false) (hbr2 : pclass ']' = false)
    (hcontent : ∀ l, pbody l = true → ∃ c ∈ l, c.isDigit = true ∨ c = '@') :
    ∀ (fuel : Nat) (prev prevY : Option Char) (cs : List Char),
      cs.length ≤ fuel → Compat prev prevY cs →
      ScanSafe qml pbody fuel prev cs →
      NoMatchML pml prevY (scanAux qml fuel prev cs)
  | 0, prev, prevY, cs, hf, _, _ => by
    have hnil : cs = [] := List.eq_nil_of_length_eq_zero (by omega)
    subst hnil
    exact trivial
  | _ + 1, prev, prevY, [], _, _, _ => trivial
  | fuel + 1, prev, prevY, c :: cs', hf, hcompat, hsafe => by
    cases hq : qml prev (c :: cs') with
    | none =>
      rw [scanAux_cons_none qml fuel prev c cs' hq]
      simp only [ScanSafe, hq] at hsafe
      refine ⟨?_, ?_⟩
      · cases hp : pml prevY (c :: scanAux qml fuel (some c) cs') with
        | none => rfl
        | some L =>
          exfalso
          have hm := hp_sound _ _ _ hp
          rcases scanStruct qml
              (fun p cs L h => ⟨(hq_sound p cs L h).1, (hq_sound p cs L h).2.1⟩)
              fuel (some c) cs' (by simp at hf; omega) with
            heq | ⟨j, Lq, rest', heq, hjL, hLq1, hqm⟩
          · rw [heq] at hm
            refine hsafe.1 L ?_
            obtain ⟨h1, h2, h3, h4, h5⟩ := hm
            refine ⟨h1, h2, h3, ?_, h5⟩
            rcases hcompat with rfl | hb
            · exact h4
            · exact hb
          · rw [heq] at hm
            have hres : c :: (cs'.take j ++ sentinel ++ rest') =
                (c :: cs'.take j) ++ (sentinel ++ rest') := by simp
            rw [hres] at hm
            have hBlen : (c :: cs'.take j).length = j + 1 := by
              simp [List.length_take]
              omega
            rcases Nat.lt_or_ge (j + 1) L with hgt | hle
            · have hbr : (((c :: cs'.take j) ++ (sentinel ++ rest')).take L).get? (j + 1) =
                  some '[' := by
                rw [List.get?_take (by omega), List.get?_append_right (by omega)]
                rw [show j + 1 - (c :: cs'.take j).length = 0 by omega]
                rfl
              have hmem := List.get?_mem hbr
              have hcl := hclass _ hm.2.2.1 '[' hmem
              rw [hbrL] at hcl
              exact Bool.noConfusion hcl
            · have hz : (c :: cs'.take j) ++ cs'.drop j = c :: cs' := by
                simp
              refine hsafe.1 L ?_
              have hlead : bdryO prev (((c :: cs'.take j) ++ cs'.drop j).get? 0) = true := by
                rw [hz]
                rcases hcompat with rfl | hb
                · have h4 := hm.2.2.2.1
                  rw [List.get?_append (by simp : 0 < (c :: cs'.take j).length)] at h4
                  exact h4
                · exact hb
              have hseam : L = (c :: cs'.take j).length →
                  bdryO (((c :: cs'.take j) ++ cs'.drop j).get? (L - 1))
                    (((c :: cs'.take j) ++ cs'.drop j).get? L) = true := by
                intro hLB
                rw [hz]
                have hLj : L = j + 1 := by omega
                subst hLj
                have hlq := (hq_sound _ _ _ hqm).2.2.1
                have hdz : (cs'.drop j).get? 0 = (c :: cs').get? (j + 1) := by
                  rw [List.get?_drop]
                  rfl
                rw [hdz] at hlq
                cases hj : j with
                | zero =>
                  subst hj
                  simpa using hlq
                | succ k =>
                  subst hj
                  rw [if_neg (by omega)] at hlq
                  have hctx : (some (cs'.getD (k + 1 - 1) ' ') : Option Char) =
                      (c :: cs').get? (k + 1 + 1 - 1) := by
                    show _ = cs'.get? k
                    exact (get?_eq_some_getD (by omega) ' ').symm
                  rw [hctx] at hlq
                  exact hlq
              have htr := patMatch_transfer pbody prevY prev (c :: cs'.take j)
                (sentinel ++ rest') (cs'.drop j) L hm (by omega) hlead hseam
              rw [hz] at htr
              exact htr
      · exact scan_no_match qml pml pbody pclass hq_sound hp_sound hclass hbrL
          hbr2 hcontent fuel (some c) (some c) cs' (by simp at hf; omega)
          (Or.inl rfl) hsafe.2
    | some Lq =>
      rw [scanAux_cons_some qml fuel prev c cs' Lq hq]
      simp only [ScanSafe, hq] at hsafe
      apply noMatchML_sentinel_append pml pbody pclass hp_sound hclass hbr2 hcontent
      refine scan_no_match qml pml pbody pclass hq_sound hp_sound hclass hbrL
        hbr2 hcontent fuel (some ((c :: cs').getD (Lq - 1) c)) (some ']')
        ((c :: cs').drop Lq) ?_ ?_ hsafe
      · have hb := (hq_sound _ _ _ hq).1
        rw [List.length_drop]
        simp at hf
        simp
        omega
      · right
        have hbounds := hq_sound _ _ _ hq
        have hctx : (some ((c :: cs').getD (Lq - 1) c) : Option Char) =
            (c :: cs').get? (Lq - 1) :=
          (get?_eq_some_getD (by omega) c).symm
        have hdz : ((c :: cs').drop Lq).get? 0 = (c :: cs').get? Lq := by
          rw [List.get?_drop, Nat.add_zero]
        rw [hctx, hdz]
        exact hbounds.2.2.2

/-! ### C8: SSN pattern obligations -/

theorem ssnBody_length {l : List Char} (h : ssnBody l = true) : l.length = 11 := by
  unfold ssnBody at h
  simp only [Bool.and_eq_true, decide_eq_true_eq] at h
  exact h.1.1.1.1.1.1.1.1.1.1.1

theorem ssnLen_sound : ∀ (prev : Option Char) (cs : List Char) (L : Nat),
    ssnLen prev cs = some L → patMatch ssnBody prev cs L := by
  intro prev cs L h
  unfold ssnLen at h
  split at h
  case isTrue hcond =>
    have hL : L = 11 := (Option.some.inj h).symm
    subst hL
    simp only [Bool.and_eq_true, decide_eq_true_eq] at hcond
    obtain ⟨⟨⟨hb1, hlen⟩, hbody⟩, hb2⟩ := hcond
    exact ⟨by omega, hlen, hbody, hb1, hb2⟩
  case isFalse => exact absurd h (by simp)

theorem ssnLen_complete : ∀ (prev : Option Char) (cs : List Char),
    ssnLen prev cs = none → ∀ L, ¬ patMatch ssnBody prev cs L := by
  intro prev cs hn L hm
  obtain ⟨h1, h2, hbody, hlead, htrail⟩ := hm
  have hlen11 : (cs.take L).length = 11 := ssnBody_length hbody
  rw [List.length_take] at hlen11
  have hL : L = 11 := by omega
  subst hL
  unfold ssnLen at hn
  split at hn
  case isTrue => exact Option.noConfusion hn
  case isFalse hcond =>
    apply hcond
    simp only [Bool.and_eq_true, decide_eq_true_eq]
    exact ⟨⟨⟨hlead, by omega⟩, hbody⟩, htrail⟩

theorem digAt_char {l : List Char} {i : Nat} {c : Char} (hget : l.get? i = some c)
    (h : digAt l i = true) : c.isDigit = true := by
  unfold digAt at h
  rw [hget] at h
  exact h

theorem chAt_char {l : List Char} {i : Nat} {c c0 : Char} (hget : l.get? i = some c)
    (h : chAt l i c0 = true) : c = c0 := by
  unfold chAt at h
  rw [hget] at h
  simpa using h

theorem ssnBody_class {l : List Char} (h : ssnBody l = true) :
    ∀ c ∈ l, ssnClass c = true := by
  intro c hc
  obtain ⟨i, hget⟩ := List.mem_iff_get?.mp hc
  have hi : i < l.length := by
    rcases List.get?_eq_some.mp hget with ⟨hlt, -⟩
    exact hlt
  rw [ssnBody_length h] at hi
  unfold ssnBody at h
  simp only [Bool.and_eq_true, decide_eq_true_eq] at h
  obtain ⟨⟨⟨⟨⟨⟨⟨⟨⟨⟨⟨-, d0⟩, d1⟩, d2⟩, c3⟩, d4⟩, d5⟩, c6⟩, d7⟩, d8⟩, d9⟩, d10⟩ := h
  interval_cases i
  · simp [ssnClass, digAt_char hget d0]
  · simp [ssnClass, digAt_char hget d1]
  · simp [ssnClass, digAt_char hget d2]
  · have hc3 := chAt_char hget c3
    subst hc3
    decide
  · simp [ssnClass, digAt_char hget d4]
  · simp [ssnClass, digAt_char hget d5]
  · have hc6 := chAt_char hget c6
    subst hc6
    decide
  · simp [ssnClass, digAt_char hget d7]
  · simp [ssnClass, digAt_char hget d8]
  · simp [ssnClass, digAt_char hget d9]
  · simp [ssnClass, digAt_char hget d10]

theorem ssnBody_content {l : List Char} (h : ssnBody l = true) :
    ∃ c ∈ l, c.isDigit = true ∨ c = '@' := by
  unfold ssnBody at h
  simp only [Bool.and_eq_true, decide_eq_true_eq] at h
  have d0 := h.1.1.1.1.1.1.1.1.1.1.2
  unfold digAt at d0
  cases hget : l.get? 0 with
  | none => rw [hget] at d0; exact Bool.noConfusion d0
  | some c =>
    rw [hget] at d0
    exact ⟨c, List.get?_mem hget, Or.inl d0⟩

/-! ### C8: digit-group pattern obligations (credit card, phone) -/

theorem grpSeq_class (sep : Char → Bool) :
    ∀ (sizes : List Nat) (l : List Char), grpSeq sep sizes l = true →
      ∀ c ∈ l, (c.isDigit || sep c) = true
  | [], l, h, c, hc => by
    unfold grpSeq at h
    rw [List.isEmpty_iff.mp h] at hc
    exact absurd hc (List.not_mem_nil c)
  | sz :: more, l, h, c, hc => by
    unfold grpSeq at h
    simp only [Bool.and_eq_true, decide_eq_true_eq] at h
    obtain ⟨⟨hlen, hdig⟩, hbr⟩ := h
    rw [← List.take_append_drop sz l] at hc
    rcases List.mem_append.mp hc with hmem | hmem
    · rw [List.all_eq_true] at hdig
      rw [hdig c hmem]
      rfl
    · cases hme : more.isEmpty with
      | true =>
        rw [hme] at hbr
        simp only [if_true] at hbr
        rw [List.isEmpty_iff.mp hbr] at hmem
        exact absurd hmem (List.not_mem_nil c)
      | false =>
        rw [hme] at hbr
        simp only [Bool.false_eq_true, if_false, Bool.or_eq_true] at hbr
        rcases hbr with hbr | hbr
        · exact grpSeq_class sep more (l.drop sz) hbr c hmem
        · cases hd : l.drop sz with
          | nil => rw [hd] at hbr; exact Bool.noConfusion hbr
          | cons s r =>
            rw [hd] at hbr hmem
            simp only [Bool.and_eq_true] at hbr
            rcases List.mem_cons.mp hmem with rfl | hmem
            · rw [hbr.1]
              simp
            · exact grpSeq_class sep more r hbr.2 c hmem

theorem grpSeq_head_le {sep : Char → Bool} {sz : Nat} {more : List Nat}
    {l : List Char} (h : grpSeq sep (sz :: more) l = true) : sz ≤ l.length := by
  unfold grpSeq at h
  simp only [Bool.and_eq_true, decide_eq_true_eq] at h
  have := h.1.1
  rw [List.length_take] at this
  omega

theorem grpSeq_content {sep : Char → Bool} {sz : Nat} {more : List Nat}
    {l : List Char} (hsz : 1 ≤ sz) (h : grpSeq sep (sz :: more) l = true) :
    ∃ c ∈ l, c.isDigit = true ∨ c = '@' := by
  have hle := grpSeq_head_le h
  unfold grpSeq at h
  simp only [Bool.and_eq_true, decide_eq_true_eq] at h
  have hdig := h.1.2
  cases hget : l.get? 0 with
  | none =>
    rw [List.get?_eq_none] at hget
    omega
  | some c =>
    refine ⟨c, List.get?_mem hget, Or.inl ?_⟩
    rw [List.all_eq_true] at hdig
    have h2 : (l.take sz).get? 0 = some c := by
      rw [List.get?_take (by omega : 0 < sz)]
      exact hget
    exact hdig c (List.get?_mem h2)

theorem comboLen_cons_cons_true (sep : Char → Bool) (sz m : Nat) (ms : List Nat)
    (combo' : List Bool) (cs : List Char) :
    comboLen sep (sz :: m :: ms) (true :: combo') cs =
      if decide ((cs.take sz).length = sz) && (cs.take sz).all Char.isDigit then
        match cs.drop sz with
        | s :: r =>
          if sep s then
            match comboLen sep (m :: ms) combo' r with
            | some L => some (sz + 1 + L)
            | none => none
          else none
        | [] => none
      else none := rfl

theorem comboLen_cons_cons_false (sep : Char → Bool) (sz m : Nat) (ms : List Nat)
    (combo' : List Bool) (cs : List Char) :
    comboLen sep (sz :: m :: ms) (false :: combo') cs =
      if decide ((cs.take sz).length = sz) && (cs.take sz).all Char.isDigit then
        match comboLen sep (m :: ms) combo' (cs.drop sz) with
        | some L => some (sz + L)
        | none => none
      else none := rfl

theorem comboLen_cons_cons_nil (sep : Char → Bool) (sz m : Nat) (ms : List Nat)
    (cs : List Char) :
    comboLen sep (sz :: m :: ms) [] cs = none := by
  unfold comboLen
  split <;> rfl

theorem comboLen_sound (sep : Char → Bool) :
    ∀ (sizes : List Nat) (combo : List Bool) (cs : List Char) (L : Nat),
      comboLen sep sizes combo cs = some L →
      grpSeq sep sizes (cs.take L) = true ∧ L ≤ cs.length
  | [], combo, cs, L, h => by
    unfold comboLen at h
    have hL : L = 0 := (Option.some.inj h).symm
    subst hL
    refine ⟨by unfold grpSeq; simp, by omega⟩
  | sz :: more, combo, cs, L, h => by
    cases more with
    | nil =>
      simp only [comboLen] at h
      split at h
      case isFalse => exact Option.noConfusion h
      case isTrue hdig =>
        simp only [Bool.and_eq_true, decide_eq_true_eq] at hdig
        have hszle : sz ≤ cs.length := by
          have := hdig.1
          rw [List.length_take] at this
          omega
        have hL : L = sz := (Option.some.inj h).symm
        subst hL
        constructor
        · unfold grpSeq
          simp only [Bool.and_eq_true, decide_eq_true_eq]
          refine ⟨⟨?_, ?_⟩, ?_⟩
          · rw [List.take_take, min_self]
            exact hdig.1
          · rw [List.take_take, min_self]
            exact hdig.2
          · simp [List.drop_take]
        · omega
    | cons m ms =>
      cases combo with
      | nil =>
        rw [comboLen_cons_cons_nil] at h
        exact Option.noConfusion h
      | cons b combo' =>
        cases b with
        | true =>
          rw [comboLen_cons_cons_true] at h
          split at h
          case isFalse => exact Option.noConfusion h
          case isTrue hdig =>
            simp only [Bool.and_eq_true, decide_eq_true_eq] at hdig
            have hszle : sz ≤ cs.length := by
              have := hdig.1
              rw [List.length_take] at this
              omega
            split at h
            case h_2 hd => exact Option.noConfusion h
            case h_1 s r hd =>
              split at h
              case isFalse => exact Option.noConfusion h
              case isTrue hsep =>
                split at h
                case h_2 hcl => exact Option.noConfusion h
                case h_1 L2 hcl =>
                  have hL : L = sz + 1 + L2 := (Option.some.inj h).symm
                  subst hL
                  obtain ⟨hg, hle⟩ := comboLen_sound sep (m :: ms) combo' r L2 hcl
                  have hrlen : cs.length = sz + 1 + r.length := by
                    have h2 := congrArg List.length hd
                    rw [List.length_drop] at h2
                    simp only [List.length_cons] at h2
                    omega
                  constructor
                  · unfold grpSeq
                    simp only [Bool.and_eq_true, decide_eq_true_eq]
                    refine ⟨⟨?_, ?_⟩, ?_⟩
                    · rw [List.take_take, show sz ⊓ (sz + 1 + L2) = sz by omega]
                      exact hdig.1
                    · rw [List.take_take, show sz ⊓ (sz + 1 + L2) = sz by omega]
                      exact hdig.2
                    · simp only [List.isEmpty_cons, Bool.false_eq_true, if_false]
                      rw [Bool.or_eq_true]
                      right
                      have hmatch : (cs.take (sz + 1 + L2)).drop sz = s :: r.take L2 := by
                        rw [List.drop_take, hd,
                          show sz + 1 + L2 - sz = L2 + 1 by omega,
                          List.take_succ_cons]
                      rw [hmatch]
                      simp only [Bool.and_eq_true]
                      exact ⟨hsep, hg⟩
                  · omega
        | false =>
          rw [comboLen_cons_cons_false] at h
          split at h
          case isFalse => exact Option.noConfusion h
          case isTrue hdig =>
            simp only [Bool.and_eq_true, decide_eq_true_eq] at hdig
            have hszle : sz ≤ cs.length := by
              have := hdig.1
              rw [List.length_take] at this
              omega
            split at h
            case h_2 hcl => exact Option.noConfusion h
            case h_1 L2 hcl =>
              have hL : L = sz + L2 := (Option.some.inj h).symm
              subst hL
              obtain ⟨hg, hle⟩ := comboLen_sound sep (m :: ms) combo' (cs.drop sz) L2 hcl
              rw [List.length_drop] at hle
              constructor
              · unfold grpSeq
                simp only [Bool.and_eq_true, decide_eq_true_eq]
                refine ⟨⟨?_, ?_⟩, ?_⟩
                · rw [List.take_take, show sz ⊓ (sz + L2) = sz by omega]
                  exact hdig.1
                · rw [List.take_take, show sz ⊓ (sz + L2) = sz by omega]
                  exact hdig.2
                · simp only [List.isEmpty_cons, Bool.false_eq_true, if_false]
                  rw [Bool.or_eq_true]
                  left
                  have hmatch : (cs.take (sz + L2)).drop sz = (cs.drop sz).take L2 := by
                    rw [List.drop_take, show sz + L2 - sz = L2 by omega]
                  rw [hmatch]
                  exact hg
              · omega

theorem take_eq_cons {α : Type} {X : List α} {k : Nat} {s : α} {r : List α}
    (h : X.take k = s :: r) : ∃ X2, X = s :: X2 ∧ r = X2.take (k - 1) ∧ 1 ≤ k := by
  cases X with
  | nil => rw [List.take_nil] at h; exact List.noConfusion h
  | cons x xs =>
    cases k with
    | zero => rw [List.take_zero] at h; exact List.noConfusion h
    | succ k2 =>
      rw [List.take_succ_cons] at h
      obtain ⟨h1, h2⟩ := List.cons.inj h
      refine ⟨xs, by rw [h1], ?_, by omega⟩
      rw [← h2]
      simp

theorem comboLen_complete (sep : Char → Bool) :
    ∀ (sizes : List Nat) (cs : List Char) (L : Nat),
      L ≤ cs.length → grpSeq sep sizes (cs.take L) = true →
      ∃ combo : List Bool, combo.length = sizes.length - 1 ∧
        comboLen sep sizes combo cs = some L
  | [], cs, L, hL, h => by
    unfold grpSeq at h
    cases hc : cs.take L with
    | cons x xs => rw [hc] at h; exact Bool.noConfusion h
    | nil =>
      have hlen := congrArg List.length hc
      rw [List.length_take] at hlen
      simp only [List.length_nil] at hlen
      have hL0 : L = 0 := by omega
      subst hL0
      exact ⟨[], rfl, rfl⟩
  | sz :: more, cs, L, hL, h => by
    unfold grpSeq at h
    simp only [Bool.and_eq_true, decide_eq_true_eq] at h
    obtain ⟨⟨hlen, hdig⟩, hrest⟩ := h
    have hszL : sz ≤ L := by
      rw [List.length_take, List.length_take] at hlen
      omega
    have htt : (cs.take L).take sz = cs.take sz := by
      rw [List.take_take, min_eq_left hszL]
    have hdigc : (decide ((cs.take sz).length = sz) &&
        (cs.take sz).all Char.isDigit) = true := by
      rw [← htt]
      simp only [Bool.and_eq_true, decide_eq_true_eq]
      exact ⟨hlen, hdig⟩
    cases more with
    | nil =>
      have hemp : ([] : List Nat).isEmpty = true := rfl
      rw [if_pos hemp] at hrest
      cases hc : (cs.take L).drop sz with
      | cons x xs => rw [hc] at hrest; exact Bool.noConfusion hrest
      | nil =>
        have hlen2 := congrArg List.length hc
        rw [List.length_drop, List.length_take] at hlen2
        simp only [List.length_nil] at hlen2
        have hLsz : L = sz := by omega
        subst hLsz
        refine ⟨[], rfl, ?_⟩
        rw [show comboLen sep [L] [] cs =
          if (decide ((cs.take L).length = L) && (cs.take L).all Char.isDigit) = true
          then some L else none from rfl]
        rw [if_pos hdigc]
    | cons m ms =>
      rw [if_neg (by simp)] at hrest
      rw [Bool.or_eq_true] at hrest
      have hdt : (cs.take L).drop sz = (cs.drop sz).take (L - sz) := by
        rw [List.drop_take]
      cases hrest with
      | inl hg =>
        rw [hdt] at hg
        obtain ⟨combo2, hclen, hcl⟩ := comboLen_complete sep (m :: ms) (cs.drop sz)
          (L - sz) (by rw [List.length_drop]; omega) hg
        refine ⟨false :: combo2, by simp [hclen], ?_⟩
        rw [comboLen_cons_cons_false, if_pos hdigc, hcl]
        show some (sz + (L - sz)) = some L
        congr 1
        omega
      | inr hm =>
        rw [hdt] at hm
        cases hq : (cs.drop sz).take (L - sz) with
        | nil => rw [hq] at hm; exact Bool.noConfusion hm
        | cons s r =>
          rw [hq] at hm
          have hm2 : (sep s && grpSeq sep (m :: ms) r) = true := hm
          rw [Bool.and_eq_true] at hm2
          obtain ⟨hseps, hgr⟩ := hm2
          obtain ⟨X2, hX2, hr, hk1⟩ := take_eq_cons hq
          rw [hr] at hgr
          have hlen3 : L - sz - 1 ≤ X2.length := by
            have h2 := congrArg List.length hX2
            rw [List.length_drop] at h2
            simp only [List.length_cons] at h2
            omega
          obtain ⟨combo2, hclen, hcl⟩ := comboLen_complete sep (m :: ms) X2
            (L - sz - 1) hlen3 hgr
          refine ⟨true :: combo2, by simp [hclen], ?_⟩
          rw [comboLen_cons_cons_true, if_pos hdigc, hX2]
          show (if sep s = true then
              (match comboLen sep (m :: ms) combo2 X2 with
               | some L2 => some (sz + 1 + L2)
               | none => none)
            else none) = some L
          rw [if_pos hseps, hcl]
          show some (sz + 1 + (L - sz - 1)) = some L
          congr 1
          omega
theorem mem_combos3 (combo : List Bool) (h : combo.length = 3) :
    combo ∈ combos3 := by
  rcases combo with - | ⟨a, combo⟩
  · simp at h
  rcases combo with - | ⟨b, combo⟩
  · simp at h
  rcases combo with - | ⟨c, combo⟩
  · simp at h
  rcases combo with - | ⟨d, combo⟩
  · cases a <;> cases b <;> cases c <;> decide
  · simp at h

theorem mem_combos2 (combo : List Bool) (h : combo.length = 2) :
    combo ∈ combos2 := by
  rcases combo with - | ⟨a, combo⟩
  · simp at h
  rcases combo with - | ⟨b, combo⟩
  · simp at h
  rcases combo with - | ⟨c, combo⟩
  · cases a <;> cases b <;> decide
  · simp at h

theorem grpLen_sound (sep : Char → Bool) (sz : Nat) (more : List Nat)
    (combos : List (List Bool)) (hsz : 1 ≤ sz)
    (prev : Option Char) (cs : List Char) (L : Nat)
    (h : grpLen sep (sz :: more) combos prev cs = some L) :
    patMatch (grpSeq sep (sz :: more)) prev cs L := by
  unfold grpLen at h
  split at h
  case isFalse => exact Option.noConfusion h
  case isTrue hlead =>
    obtain ⟨combo, hmem, hf⟩ := List.exists_of_findSome?_eq_some h
    cases hcl : comboLen sep (sz :: more) combo cs with
    | none => rw [hcl] at hf; exact Option.noConfusion hf
    | some L0 =>
      rw [hcl] at hf
      have hf2 : (if bdryO (cs.get? (L0 - 1)) (cs.get? L0) = true
          then some L0 else none) = some L := hf
      split at hf2
      case isFalse => exact Option.noConfusion hf2
      case isTrue htrail =>
        have hLL0 : L0 = L := Option.some.inj hf2
        subst hLL0
        obtain ⟨hg, hle⟩ := comboLen_sound sep (sz :: more) combo cs L0 hcl
        have h1 : 1 ≤ L0 := by
          have := grpSeq_head_le hg
          rw [List.length_take] at this
          omega
        exact ⟨h1, hle, hg, hlead, htrail⟩

theorem grpLen_complete (sep : Char → Bool) (sz : Nat) (more : List Nat)
    (combos : List (List Bool))
    (hcov : ∀ combo : List Bool, combo.length = more.length → combo ∈ combos)
    (prev : Option Char) (cs : List Char)
    (hn : grpLen sep (sz :: more) combos prev cs = none)
    (L : Nat) (hm : patMatch (grpSeq sep (sz :: more)) prev cs L) : False := by
  obtain ⟨h1, hle, hg, hlead, htrail⟩ := hm
  obtain ⟨combo, hclen, hcl⟩ := comboLen_complete sep (sz :: more) cs L hle hg
  unfold grpLen at hn
  split at hn
  case isFalse hc => exact hc hlead
  case isTrue =>
    rw [List.findSome?_eq_none] at hn
    have := hn combo (hcov combo (by simpa using hclen))
    rw [hcl] at this
    have h2 : (if bdryO (cs.get? (L - 1)) (cs.get? L) = true
        then some L else none) = none := this
    rw [if_pos htrail] at h2
    exact Option.noConfusion h2
theorem maxRun_le_length (p : Char → Bool) :
    ∀ cs : List Char, maxRun p cs ≤ cs.length
  | [] => by simp [maxRun]
  | x :: xs => by
    unfold maxRun
    rw [List.takeWhile_cons]
    cases hp : p x with
    | true =>
      simp only [if_true, List.length_cons]
      have := maxRun_le_length p xs
      unfold maxRun at this
      omega
    | false => simp

theorem take_all_of_le_maxRun (p : Char → Bool) :
    ∀ (cs : List Char) (k : Nat), k ≤ maxRun p cs → (cs.take k).all p = true
  | _, 0, _ => by simp
  | [], k + 1, h => by simp [maxRun] at h
  | x :: xs, k + 1, h => by
    unfold maxRun at h
    rw [List.takeWhile_cons] at h
    cases hp : p x with
    | false =>
      rw [hp] at h
      simp at h
    | true =>
      rw [hp] at h
      simp only [if_true, List.length_cons] at h
      rw [List.take_succ_cons, List.all_cons, Bool.and_eq_true]
      exact ⟨hp, take_all_of_le_maxRun p xs k (by unfold maxRun; omega)⟩

theorem get?_maxRun_not (p : Char → Bool) :
    ∀ (cs : List Char) (c : Char),
      cs.get? (maxRun p cs) = some c → p c = false
  | [], c, h => by simp [maxRun] at h
  | x :: xs, c, h => by
    unfold maxRun at h
    rw [List.takeWhile_cons] at h
    cases hp : p x with
    | true =>
      rw [hp] at h
      simp only [if_true, List.length_cons] at h
      exact get?_maxRun_not p xs c h
    | false =>
      rw [hp] at h
      simp only [Bool.false_eq_true, if_false, List.length_nil] at h
      have hxc : x = c := by
        simpa using h
      rw [← hxc]
      exact hp

theorem le_maxRun_of_take_all (p : Char → Bool) :
    ∀ (cs : List Char) (k : Nat), k ≤ cs.length →
      (cs.take k).all p = true → k ≤ maxRun p cs
  | _, 0, _, _ => Nat.zero_le _
  | [], k + 1, h, _ => by simp at h
  | x :: xs, k + 1, h, ha => by
    rw [List.take_succ_cons, List.all_cons, Bool.and_eq_true] at ha
    unfold maxRun
    rw [List.takeWhile_cons, if_pos ha.1]
    simp only [List.length_cons]
    have := le_maxRun_of_take_all p xs k (by simp at h; omega) ha.2
    unfold maxRun at this
    omega
theorem emailBody_unpack {l : List Char} (h : emailBody l = true) :
    ∃ a d, 1 ≤ a ∧ (l.take a).all isLocalChar = true ∧ l.get? a = some '@' ∧
      1 ≤ d ∧ ((l.drop (a + 1)).take d).all isDomainChar = true ∧
      (l.drop (a + 1)).get? d = some '.' ∧
      2 ≤ l.length - (a + 1 + d + 1) ∧
      (l.drop (a + 1 + d + 1)).all isTldChar = true := by
  unfold emailBody at h
  rw [List.any_eq_true] at h
  obtain ⟨a, hamem, ha⟩ := h
  simp only [Bool.and_eq_true, decide_eq_true_eq, beq_iff_eq, List.any_eq_true,
    List.mem_range] at ha
  obtain ⟨⟨⟨ha1, hloc⟩, hat⟩, d, hdmem, ⟨⟨⟨hd1, hdom⟩, hdot⟩, htl2⟩, htld⟩ := ha
  exact ⟨a, d, ha1, hloc, hat, hd1, hdom, hdot, htl2, htld⟩

theorem emailBody_intro {l : List Char} {a d : Nat}
    (ha1 : 1 ≤ a) (hloc : (l.take a).all isLocalChar = true)
    (hat : l.get? a = some '@') (hd1 : 1 ≤ d)
    (hdom : ((l.drop (a + 1)).take d).all isDomainChar = true)
    (hdot : (l.drop (a + 1)).get? d = some '.')
    (htl2 : 2 ≤ l.length - (a + 1 + d + 1))
    (htld : (l.drop (a + 1 + d + 1)).all isTldChar = true) :
    emailBody l = true := by
  unfold emailBody
  rw [List.any_eq_true]
  refine ⟨a, ?_, ?_⟩
  · rw [List.mem_range]
    obtain ⟨hlt, -⟩ := List.get?_eq_some.mp hat
    omega
  · simp only [Bool.and_eq_true, decide_eq_true_eq, beq_iff_eq, List.any_eq_true,
      List.mem_range]
    refine ⟨⟨⟨ha1, hloc⟩, hat⟩, d, ?_, ⟨⟨⟨hd1, hdom⟩, hdot⟩, htl2⟩, htld⟩
    obtain ⟨hlt, -⟩ := List.get?_eq_some.mp hdot
    rw [List.length_drop] at hlt
    omega

theorem emailBody_content {l : List Char} (h : emailBody l = true) :
    ∃ c ∈ l, c.isDigit = true ∨ c = '@' := by
  obtain ⟨a, d, -, -, hat, -⟩ := emailBody_unpack h
  exact ⟨'@', List.get?_mem hat, Or.inr rfl⟩

theorem emailBody_class {l : List Char} (h : emailBody l = true) :
    ∀ c ∈ l, emailClass c = true := by
  intro c hc
  obtain ⟨a, d, ha1, hloc, hat, hd1, hdom, hdot, htl2, htld⟩ := emailBody_unpack h
  obtain ⟨i, hget⟩ := List.mem_iff_get?.mp hc
  unfold emailClass
  rcases Nat.lt_or_ge i a with hia | hia
  · have hgt : (l.take a).get? i = some c := by
      rw [List.get?_take hia]
      exact hget
    have hl := (List.all_eq_true.mp hloc) c (List.get?_mem hgt)
    simp [hl]
  rcases Nat.eq_or_lt_of_le hia with hia2 | hia2
  · rw [← hia2] at hget
    rw [hget] at hat
    have : c = '@' := Option.some.inj hat
    simp [this]
  · have hgd : (l.drop (a + 1)).get? (i - (a + 1)) = some c := by
      rw [List.get?_drop, show a + 1 + (i - (a + 1)) = i by omega]
      exact hget
    rcases Nat.lt_or_ge (i - (a + 1)) d with hjd | hjd
    · have hgt : ((l.drop (a + 1)).take d).get? (i - (a + 1)) = some c := by
        rw [List.get?_take hjd]
        exact hgd
      have hl := (List.all_eq_true.mp hdom) c (List.get?_mem hgt)
      simp [hl]
    rcases Nat.eq_or_lt_of_le hjd with hjd2 | hjd2
    · rw [← hjd2] at hgd
      rw [hgd] at hdot
      have hcd : c = '.' := Option.some.inj hdot
      subst hcd
      have : isDomainChar '.' = true := by decide
      simp [this]
    · have hgt : (l.drop (a + 1 + d + 1)).get? (i - (a + 1 + d + 1)) = some c := by
        have hdd : l.drop (a + 1 + d + 1) = (l.drop (a + 1)).drop (d + 1) := by
          rw [List.drop_drop]
          congr 1
        rw [hdd, List.get?_drop, show d + 1 + (i - (a + 1 + d + 1)) = i - (a + 1) by omega]
        exact hgd
      have hl := (List.all_eq_true.mp htld) c (List.get?_mem hgt)
      simp [hl]
theorem emailLen_sound (prev : Option Char) (cs : List Char) (L : Nat)
    (h : emailLen prev cs = some L) : patMatch emailBody prev cs L := by
  simp only [emailLen] at h
  split at h
  case isFalse => exact Option.noConfusion h
  case isTrue hlead =>
  split at h
  case isFalse => exact Option.noConfusion h
  case isTrue hcond =>
  simp only [Bool.and_eq_true, decide_eq_true_eq, beq_iff_eq] at hcond
  obtain ⟨ha1, hat⟩ := hcond
  obtain ⟨d, hdmem, hfd⟩ := List.exists_of_findSome?_eq_some h
  simp only [List.mem_map, List.mem_reverse, List.mem_range] at hdmem
  obtain ⟨d0, hd0, hdd⟩ := hdmem
  split at hfd
  case isFalse => exact Option.noConfusion hfd
  case isTrue hdot =>
  rw [beq_iff_eq] at hdot
  obtain ⟨t, htmem, hft⟩ := List.exists_of_findSome?_eq_some hfd
  simp only [List.mem_map, List.mem_reverse, List.mem_range] at htmem
  obtain ⟨t0, ht0, htt⟩ := htmem
  split at hft
  case isFalse => exact Option.noConfusion hft
  case isTrue htrail =>
  have hL : L = maxRun isLocalChar cs + 1 + d + 1 + t := (Option.some.inj hft).symm
  have ha_lt : maxRun isLocalChar cs < cs.length := by
    obtain ⟨hlt, -⟩ := List.get?_eq_some.mp hat
    exact hlt
  have hd_lt : d < cs.length - (maxRun isLocalChar cs + 1) := by
    obtain ⟨hlt, -⟩ := List.get?_eq_some.mp hdot
    rw [List.length_drop] at hlt
    omega
  have hdD : d ≤ maxRun isDomainChar (cs.drop (maxRun isLocalChar cs + 1)) := by
    omega
  have ht2 : 2 ≤ t := by omega
  have htT : t ≤ maxRun isTldChar
      ((cs.drop (maxRun isLocalChar cs + 1)).drop (d + 1)) := by
    omega
  have hT_le := maxRun_le_length isTldChar
    ((cs.drop (maxRun isLocalChar cs + 1)).drop (d + 1))
  rw [List.length_drop, List.length_drop] at hT_le
  have hLle : L ≤ cs.length := by omega
  have haL : maxRun isLocalChar cs + 1 + d + 1 ≤ L := by omega
  refine ⟨by omega, hLle, ?_, hlead, ?_⟩
  · refine emailBody_intro (a := maxRun isLocalChar cs) (d := d) ha1 ?_ ?_ (by omega)
      ?_ ?_ ?_ ?_
    · rw [List.take_take, min_eq_left (by omega)]
      exact take_all_of_le_maxRun isLocalChar cs _ (le_refl _)
    · rw [List.get?_take (by omega)]
      exact hat
    · rw [List.drop_take, List.take_take, min_eq_left (by omega)]
      exact take_all_of_le_maxRun isDomainChar _ _ hdD
    · rw [List.drop_take, List.get?_take (by omega)]
      exact hdot
    · rw [List.length_take, min_eq_left hLle]
      omega
    · rw [List.drop_take]
      have hdd2 : cs.drop (maxRun isLocalChar cs + 1 + d + 1) =
          (cs.drop (maxRun isLocalChar cs + 1)).drop (d + 1) := by
        rw [List.drop_drop]
        congr 1
      rw [hdd2, show L - (maxRun isLocalChar cs + 1 + d + 1) = t by omega]
      exact take_all_of_le_maxRun isTldChar _ _ htT
  · have hg1 : ((cs.drop (maxRun isLocalChar cs + 1)).drop (d + 1)).get? (t - 1) =
        cs.get? (L - 1) := by
      rw [List.get?_drop, List.get?_drop]
      congr 1
      omega
    have hg2 : ((cs.drop (maxRun isLocalChar cs + 1)).drop (d + 1)).get? t =
        cs.get? L := by
      rw [List.get?_drop, List.get?_drop]
      congr 1
      omega
    rw [hg1, hg2] at htrail
    exact htrail
theorem emailLen_complete (prev : Option Char) (cs : List Char)
    (hn : emailLen prev cs = none) (L : Nat)
    (hm : patMatch emailBody prev cs L) : False := by
  obtain ⟨h1, hLle, hbody, hlead, htrail⟩ := hm
  obtain ⟨a, d, ha1, hloc, hat, hd1, hdom, hdot, htl2, htld⟩ := emailBody_unpack hbody
  have hlenL : (cs.take L).length = L := by
    rw [List.length_take]
    omega
  have ha_lt : a < L := by
    obtain ⟨hlt, -⟩ := List.get?_eq_some.mp hat
    omega
  rw [List.get?_take ha_lt] at hat
  rw [List.take_take, min_eq_left (by omega : a ≤ L)] at hloc
  have hle : a ≤ maxRun isLocalChar cs :=
    le_maxRun_of_take_all isLocalChar cs a (by omega) hloc
  have hge : maxRun isLocalChar cs ≤ a := by
    by_contra hcon
    push_neg at hcon
    have hall := take_all_of_le_maxRun isLocalChar cs (a + 1) (by omega)
    have hgt : (cs.take (a + 1)).get? a = some '@' := by
      rw [List.get?_take (by omega)]
      exact hat
    have hbad := (List.all_eq_true.mp hall) '@' (List.get?_mem hgt)
    exact absurd hbad (by decide)
  have haeq : a = maxRun isLocalChar cs := le_antisymm hle hge
  rw [List.drop_take] at hdot
  have hd_lt : d < L - (a + 1) := by
    obtain ⟨hlt, -⟩ := List.get?_eq_some.mp hdot
    rw [List.length_take, List.length_drop] at hlt
    omega
  rw [List.get?_take hd_lt] at hdot
  rw [List.drop_take, List.take_take, min_eq_left (by omega : d ≤ L - (a + 1))] at hdom
  have hdD : d ≤ maxRun isDomainChar (cs.drop (a + 1)) :=
    le_maxRun_of_take_all isDomainChar (cs.drop (a + 1)) d
      (by rw [List.length_drop]; omega) hdom
  rw [hlenL] at htl2
  rw [List.drop_take] at htld
  have hdd2 : (cs.drop (a + 1)).drop (d + 1) = cs.drop (a + 1 + d + 1) := by
    rw [List.drop_drop]
    congr 1
  have htT : L - (a + 1 + d + 1) ≤
      maxRun isTldChar ((cs.drop (a + 1)).drop (d + 1)) := by
    refine le_maxRun_of_take_all isTldChar _ _ ?_ ?_
    · rw [List.length_drop, List.length_drop]
      omega
    · rw [hdd2]
      exact htld
  simp only [emailLen] at hn
  split at hn
  case isFalse hc => exact hc hlead
  case isTrue =>
  split at hn
  case isFalse hc =>
    apply hc
    rw [← haeq]
    simp only [Bool.and_eq_true, decide_eq_true_eq, beq_iff_eq]
    exact ⟨ha1, hat⟩
  case isTrue =>
  rw [← haeq, List.findSome?_eq_none] at hn
  have hdmem : d ∈ (List.range (maxRun isDomainChar (cs.drop (a + 1)))).reverse.map
      (fun x => x + 1) := by
    simp only [List.mem_map, List.mem_reverse, List.mem_range]
    exact ⟨d - 1, by omega, by omega⟩
  have hfd := hn d hdmem
  split at hfd
  case isFalse hc => exact hc (by rw [hdot]; rfl)
  case isTrue =>
  rw [List.findSome?_eq_none] at hfd
  have htmem : L - (a + 1 + d + 1) ∈
      (List.range (maxRun isTldChar ((cs.drop (a + 1)).drop (d + 1)) - 1)).reverse.map
        (fun x => x + 2) := by
    simp only [List.mem_map, List.mem_reverse, List.mem_range]
    exact ⟨L - (a + 1 + d + 1) - 2, by omega, by omega⟩
  have hft := hfd (L - (a + 1 + d + 1)) htmem
  split at hft
  case isTrue => exact Option.noConfusion hft
  case isFalse hc =>
    apply hc
    have hg1 : ((cs.drop (a + 1)).drop (d + 1)).get? (L - (a + 1 + d + 1) - 1) =
        cs.get? (L - 1) := by
      rw [List.get?_drop, List.get?_drop]
      congr 1
      omega
    have hg2 : ((cs.drop (a + 1)).drop (d + 1)).get? (L - (a + 1 + d + 1)) =
        cs.get? L := by
      rw [List.get?_drop, List.get?_drop]
      congr 1
      omega
    rw [hg1, hg2]
    exact htrail
/-! ### C8: per-pattern packages and assembly -/

theorem ccLen_sound (prev : Option Char) (cs : List Char) (L : Nat)
    (h : ccLen prev cs = some L) : patMatch ccBody prev cs L :=
  grpLen_sound isCcSep 4 [4, 4, 4] combos3 (by omega) prev cs L h

theorem ccLen_complete (prev : Option Char) (cs : List Char)
    (hn : ccLen prev cs = none) (L : Nat)
    (hm : patMatch ccBody prev cs L) : False :=
  grpLen_complete isCcSep 4 [4, 4, 4] combos3
    (fun combo hc => mem_combos3 combo hc) prev cs hn L hm

theorem phoneLen_sound (prev : Option Char) (cs : List Char) (L : Nat)
    (h : phoneLen prev cs = some L) : patMatch phoneBody prev cs L :=
  grpLen_sound isPhoneSep 3 [3, 4] combos2 (by omega) prev cs L h

theorem phoneLen_complete (prev : Option Char) (cs : List Char)
    (hn : phoneLen prev cs = none) (L : Nat)
    (hm : patMatch phoneBody prev cs L) : False :=
  grpLen_complete isPhoneSep 3 [3, 4] combos2
    (fun combo hc => mem_combos2 combo hc) prev cs hn L hm

theorem ssnLen_lite (prev : Option Char) (cs : List Char) (L : Nat)
    (h : ssnLen prev cs = some L) :
    1 ≤ L ∧ L ≤ cs.length ∧ bdryO prev (cs.get? 0) = true ∧
      bdryO (cs.get? (L - 1)) (cs.get? L) = true :=
  ⟨(ssnLen_sound prev cs L h).1, (ssnLen_sound prev cs L h).2.1,
   (ssnLen_sound prev cs L h).2.2.2.1, (ssnLen_sound prev cs L h).2.2.2.2⟩

theorem ccLen_lite (prev : Option Char) (cs : List Char) (L : Nat)
    (h : ccLen prev cs = some L) :
    1 ≤ L ∧ L ≤ cs.length ∧ bdryO prev (cs.get? 0) = true ∧
      bdryO (cs.get? (L - 1)) (cs.get? L) = true :=
  ⟨(ccLen_sound prev cs L h).1, (ccLen_sound prev cs L h).2.1,
   (ccLen_sound prev cs L h).2.2.2.1, (ccLen_sound prev cs L h).2.2.2.2⟩

theorem phoneLen_lite (prev : Option Char) (cs : List Char) (L : Nat)
    (h : phoneLen prev cs = some L) :
    1 ≤ L ∧ L ≤ cs.length ∧ bdryO prev (cs.get? 0) = true ∧
      bdryO (cs.get? (L - 1)) (cs.get? L) = true :=
  ⟨(phoneLen_sound prev cs L h).1, (phoneLen_sound prev cs L h).2.1,
   (phoneLen_sound prev cs L h).2.2.2.1, (phoneLen_sound prev cs L h).2.2.2.2⟩

theorem emailLen_lite (prev : Option Char) (cs : List Char) (L : Nat)
    (h : emailLen prev cs = some L) :
    1 ≤ L ∧ L ≤ cs.length ∧ bdryO prev (cs.get? 0) = true ∧
      bdryO (cs.get? (L - 1)) (cs.get? L) = true :=
  ⟨(emailLen_sound prev cs L h).1, (emailLen_sound prev cs L h).2.1,
   (emailLen_sound prev cs L h).2.2.2.1, (emailLen_sound prev cs L h).2.2.2.2⟩

/-- After a pass of an engine over any string, the engine finds no match
in the output. -/
theorem noMatch_after_self
    (ml : Option Char → List Char → Option Nat)
    (pbody : List Char → Bool) (pclass : Char → Bool)
    (hsound : ∀ prev cs L, ml prev cs = some L → patMatch pbody prev cs L)
    (hcomplete : ∀ prev cs, ml prev cs = none → ∀ L, ¬ patMatch pbody prev cs L)
    (hclass : ∀ l, pbody l = true → ∀ c ∈ l, pclass c = true)
    (hbrL : pclass '[' = false) (hbr2 : pclass ']' = false)
    (hcontent : ∀ l, pbody l = true → ∃ c ∈ l, c.isDigit = true ∨ c = '@')
    (cs : List Char) : NoMatchML ml none (subRe ml cs) :=
  scan_no_match ml ml pbody pclass
    (fun prev cs2 L h => ⟨(hsound prev cs2 L h).1, (hsound prev cs2 L h).2.1,
      (hsound prev cs2 L h).2.2.2.1, (hsound prev cs2 L h).2.2.2.2⟩)
    hsound hclass hbrL hbr2 hcontent
    cs.length none none cs (le_refl _) (Or.inl rfl)
    (scanSafe_self ml pbody hcomplete cs.length none cs)

/-- A pass of another engine preserves the absence of matches. -/
theorem noMatch_preserved
    (qml pml : Option Char → List Char → Option Nat)
    (pbody : List Char → Bool) (pclass : Char → Bool)
    (hq_lite : ∀ prev cs L, qml prev cs = some L →
      1 ≤ L ∧ L ≤ cs.length ∧ bdryO prev (cs.get? 0) = true ∧
        bdryO (cs.get? (L - 1)) (cs.get? L) = true)
    (hp_sound : ∀ prev cs L, pml prev cs = some L → patMatch pbody prev cs L)
    (hp_complete : ∀ prev cs, pml prev cs = none → ∀ L, ¬ patMatch pbody prev cs L)
    (hclass : ∀ l, pbody l = true → ∀ c ∈ l, pclass c = true)
    (hbrL : pclass '[' = false) (hbr2 : pclass ']' = false)
    (hcontent : ∀ l, pbody l = true → ∃ c ∈ l, c.isDigit = true ∨ c = '@')
    (cs : List Char) (h : NoMatchML pml none cs) :
    NoMatchML pml none (subRe qml cs) :=
  scan_no_match qml pml pbody pclass hq_lite hp_sound hclass hbrL hbr2 hcontent
    cs.length none none cs (le_refl _) (Or.inl rfl)
    (scanSafe_of_noMatch qml pml pbody hp_complete
      (fun prev cs2 L hx => (hq_lite prev cs2 L hx).1) cs.length none cs h)

theorem emailNoMatch_self (cs : List Char) :
    NoMatchML emailLen none (subRe emailLen cs) :=
  noMatch_after_self emailLen emailBody emailClass emailLen_sound
    emailLen_complete (fun _ h => emailBody_class h) (by decide) (by decide)
    (fun _ h => emailBody_content h) cs

theorem emailNoMatch_pres (qml : Option Char → List Char → Option Nat)
    (hq_lite : ∀ prev cs L, qml prev cs = some L →
      1 ≤ L ∧ L ≤ cs.length ∧ bdryO prev (cs.get? 0) = true ∧
        bdryO (cs.get? (L - 1)) (cs.get? L) = true)
    (cs : List Char) (h : NoMatchML emailLen none cs) :
    NoMatchML emailLen none (subRe qml cs) :=
  noMatch_preserved qml emailLen emailBody emailClass hq_lite emailLen_sound
    emailLen_complete (fun _ h2 => emailBody_class h2) (by decide) (by decide)
    (fun _ h2 => emailBody_content h2) cs h

theorem ssnNoMatch_self (cs : List Char) :
    NoMatchML ssnLen none (subRe ssnLen cs) :=
  noMatch_after_self ssnLen ssnBody ssnClass ssnLen_sound
    ssnLen_complete (fun _ h => ssnBody_class h) (by decide) (by decide)
    (fun _ h => ssnBody_content h) cs

theorem ssnNoMatch_pres (qml : Option Char → List Char → Option Nat)
    (hq_lite : ∀ prev cs L, qml prev cs = some L →
      1 ≤ L ∧ L ≤ cs.length ∧ bdryO prev (cs.get? 0) = true ∧
        bdryO (cs.get? (L - 1)) (cs.get? L) = true)
    (cs : List Char) (h : NoMatchML ssnLen none cs) :
    NoMatchML ssnLen none (subRe qml cs) :=
  noMatch_preserved qml ssnLen ssnBody ssnClass hq_lite ssnLen_sound
    ssnLen_complete (fun _ h2 => ssnBody_class h2) (by decide) (by decide)
    (fun _ h2 => ssnBody_content h2) cs h

theorem ccNoMatch_self (cs : List Char) :
    NoMatchML ccLen none (subRe ccLen cs) :=
  noMatch_after_self ccLen ccBody ccClass ccLen_sound
    ccLen_complete (fun l h => grpSeq_class isCcSep [4, 4, 4, 4] l h)
    (by decide) (by decide) (fun l h => grpSeq_content (by omega) h) cs

theorem ccNoMatch_pres (qml : Option Char → List Char → Option Nat)
    (hq_lite : ∀ prev cs L, qml prev cs = some L →
      1 ≤ L ∧ L ≤ cs.length ∧ bdryO prev (cs.get? 0) = true ∧
        bdryO (cs.get? (L - 1)) (cs.get? L) = true)
    (cs : List Char) (h : NoMatchML ccLen none cs) :
    NoMatchML ccLen none (subRe qml cs) :=
  noMatch_preserved qml ccLen ccBody ccClass hq_lite ccLen_sound
    ccLen_complete (fun l h2 => grpSeq_class isCcSep [4, 4, 4, 4] l h2)
    (by decide) (by decide) (fun l h2 => grpSeq_content (by omega) h2) cs h

theorem phoneNoMatch_self (cs : List Char) :
    NoMatchML phoneLen none (subRe phoneLen cs) :=
  noMatch_after_self phoneLen phoneBody phoneClass phoneLen_sound
    phoneLen_complete (fun l h => grpSeq_class isPhoneSep [3, 3, 4] l h)
    (by decide) (by decide) (fun l h => grpSeq_content (by omega) h) cs

theorem subRe_fixed (ml : Option Char → List Char → Option Nat)
    (cs : List Char) (h : NoMatchML ml none cs) : subRe ml cs = cs :=
  scanAux_id ml cs.length none cs h

theorem redact_passes_fixed (l : List Char) :
    subRe phoneLen (subRe ccLen (subRe ssnLen (subRe emailLen
      (subRe phoneLen (subRe ccLen (subRe ssnLen (subRe emailLen l))))))) =
    subRe phoneLen (subRe ccLen (subRe ssnLen (subRe emailLen l))) := by
  have hE : NoMatchML emailLen none
      (subRe phoneLen (subRe ccLen (subRe ssnLen (subRe emailLen l)))) :=
    emailNoMatch_pres phoneLen phoneLen_lite _
      (emailNoMatch_pres ccLen ccLen_lite _
        (emailNoMatch_pres ssnLen ssnLen_lite _ (emailNoMatch_self l)))
  have hS : NoMatchML ssnLen none
      (subRe phoneLen (subRe ccLen (subRe ssnLen (subRe emailLen l)))) :=
    ssnNoMatch_pres phoneLen phoneLen_lite _
      (ssnNoMatch_pres ccLen ccLen_lite _ (ssnNoMatch_self (subRe emailLen l)))
  have hC : NoMatchML ccLen none
      (subRe phoneLen (subRe ccLen (subRe ssnLen (subRe emailLen l)))) :=
    ccNoMatch_pres phoneLen phoneLen_lite _
      (ccNoMatch_self (subRe ssnLen (subRe emailLen l)))
  have hP : NoMatchML phoneLen none
      (subRe phoneLen (subRe ccLen (subRe ssnLen (subRe emailLen l)))) :=
    phoneNoMatch_self (subRe ccLen (subRe ssnLen (subRe emailLen l)))
  rw [subRe_fixed emailLen _ hE, subRe_fixed ssnLen _ hS,
    subRe_fixed ccLen _ hC, subRe_fixed phoneLen _ hP]

/-- **C8**: `redact_pii` is idempotent: redacting an already redacted
string changes nothing, because no PII pattern matches the output of the
four substitution passes. -/
theorem c8_redact_pii_idempotent (s : String) :
    redactPii (redactPii s) = redactPii s := by
  show String.mk (subRe phoneLen (subRe ccLen (subRe ssnLen (subRe emailLen
      (subRe phoneLen (subRe ccLen (subRe ssnLen (subRe emailLen
        s.toList)))))))) =
    String.mk (subRe phoneLen (subRe ccLen (subRe ssnLen (subRe emailLen
      s.toList))))
  rw [redact_passes_fixed s.toList]
